import Mathlib

/-!
Shallow embedding of the realtime race server in src/server.js.

The JS server keeps a global `rooms` Map (code -> Room), where each Room owns a
Map of players keyed by socket id.  We model the player Map as an
insertion-ordered list of Player records whose `socketId` field is the map key
(every `players.set(socket.id, player)` in the source uses the player's own
socket id as key), and the registry as an insertion-ordered list of Room
records keyed by `code`.  Timer handles (`broadcastInterval`, `raceTimeout`)
are modelled as armed/cancelled booleans; timestamps are naturals (epoch ms).
Each socket.io handler becomes a pure function from state and message to new
state plus the list of emitted events.
-/

namespace MRace

inductive Phase where
  | lobby
  | racing
  | finished
deriving DecidableEq, Repr

structure Player where
  socketId : String
  name : String
  carModel : String
  carColor : String
  progress : Nat
  clickCount : Nat
  lastClickTime : Nat
  finishedAt : Option Nat
  rank : Option Nat
  dnf : Bool
  disconnected : Bool
deriving DecidableEq, Repr

/-- The shape produced by serializePlayer in src/server.js. -/
structure SerializedPlayer where
  socketId : String
  name : String
  carModel : String
  carColor : String
  progress : Nat
  rank : Option Nat
  dnf : Bool
  disconnected : Bool
deriving DecidableEq, Repr

def serializePlayer (p : Player) : SerializedPlayer :=
  { socketId := p.socketId, name := p.name, carModel := p.carModel,
    carColor := p.carColor, progress := p.progress, rank := p.rank,
    dnf := p.dnf, disconnected := p.disconnected }

structure Room where
  code : String
  hostSocketId : String
  phase : Phase
  players : List Player
  createdAt : Nat
  raceStartedAt : Option Nat
  finishedCount : Nat
  broadcastArmed : Bool
  timeoutArmed : Bool
deriving DecidableEq, Repr

/-- Events emitted by the server handlers (io.emit / socket.emit in
src/server.js).  The firstFinisherCountdown constructor is the event the
client in src/public/game.js installs a listener for. -/
inductive Ev where
  | roomCreated (code : String) (player : SerializedPlayer)
  | roomJoined (code : String) (hostId : String) (players : List SerializedPlayer)
  | playerJoined (player : SerializedPlayer)
  | joinError (reason : String)
  | rejoinFailed (reason : String)
  | raceStarted (startTime : Nat)
  | startError (reason : String)
  | progressUpdate (updates : List (String × Nat))
  | playerFinished (socketId : String) (rank : Nat) (time : Int)
  | firstFinisherCountdown (endsAt : Nat)
  | raceFinished (results : List SerializedPlayer)
  | roomReset (players : List SerializedPlayer) (hostId : String)
  | playerLeft (socketId : String) (newHostId : Option String)
deriving DecidableEq, Repr

def Ev.isFirstFinisherCountdown : Ev → Bool
  | Ev.firstFinisherCountdown _ => true
  | _ => false

-- ── Player-map operations (JS Map keyed by socket id) ──

def getPlayer (room : Room) (sid : String) : Option Player :=
  room.players.find? (fun p => p.socketId == sid)

def setPlayer (ps : List Player) (q : Player) : List Player :=
  if ps.any (fun p => p.socketId == q.socketId) then
    ps.map (fun p => if p.socketId == q.socketId then q else p)
  else ps ++ [q]

def delPlayer (ps : List Player) (sid : String) : List Player :=
  ps.filter (fun p => p.socketId != sid)

-- ── Constants and small helpers from the source ──

def COLOR_PALETTE : List String :=
  ["#C0C0C0", "#CC0000", "#1E3A8A", "#B8860B", "#F5F5F5",
   "#4A4A4A", "#006B4F", "#FF6B35", "#7B2D8B", "#00A8CC",
   "#8B4513", "#FF1493", "#888888", "#FFD700", "#00CED1", "#DC143C"]

def carModels : List String :=
  ["a-class", "cla", "amg-gt", "300sl", "amg-gtr", "c-class"]

def sanitize (s : String) : String :=
  String.mk ((s.trim.toList.take 20).filter
    (fun c => !(['<', '>', '&', '"', '\''].contains c)))

/-- JS String.prototype.toUpperCase, modelled character-wise (structural, so
that the kernel can evaluate lookups on concrete codes). -/
def upperCode (s : String) : String := String.mk (s.data.map Char.toUpper)

def getNextColor (room : Room) : String :=
  let used := room.players.map (fun p => p.carColor)
  match COLOR_PALETTE.find? (fun c => !(used.contains c)) with
  | some c => c
  | none => COLOR_PALETTE.getD (room.players.length % COLOR_PALETTE.length) ""

/-- Fresh player record built by the create/join/rejoin handlers. -/
def mkPlayer (sid nm mdl color : String) : Player :=
  { socketId := sid,
    name := if sanitize nm = "" then "Driver" else sanitize nm,
    carModel := if carModels.contains mdl then mdl else "a-class",
    carColor := color, progress := 0, clickCount := 0, lastClickTime := 0,
    finishedAt := none, rank := none, dnf := false, disconnected := false }

-- ── buildResultsArray / endRace / checkAllFinished ──

/-- Comparator used on finished players: JS (a, b) => a.rank - b.rank. -/
def rankLe (a b : Player) : Prop := a.rank.getD 0 ≤ b.rank.getD 0

instance : DecidableRel rankLe :=
  fun a b => inferInstanceAs (Decidable (a.rank.getD 0 ≤ b.rank.getD 0))

instance : IsTotal Player rankLe := ⟨fun _ _ => Nat.le_total _ _⟩

instance : IsTrans Player rankLe := ⟨fun _ _ _ h h' => Nat.le_trans h h'⟩

/-- Comparator used on unfinished players: JS (a, b) => b.progress - a.progress. -/
def progGe (a b : Player) : Prop := b.progress ≤ a.progress

instance : DecidableRel progGe :=
  fun a b => inferInstanceAs (Decidable (b.progress ≤ a.progress))

instance : IsTotal Player progGe := ⟨fun _ _ => (Nat.le_total _ _).symm⟩

instance : IsTrans Player progGe := ⟨fun _ _ _ h h' => Nat.le_trans h' h⟩

/-- JS: unfinished.forEach(p => { p.rank = ++rank; p.dnf = true; }). -/
def assignDnfRanks (base : Nat) : List Player → List Player
  | [] => []
  | p :: ps => { p with rank := some (base + 1), dnf := true } :: assignDnfRanks (base + 1) ps

/-- The JS forEach mutates player objects shared with room.players; this map
reflects the rank/dnf assignment of an unfinished player back into the
room's player map (keys are unique socket ids). -/
def applyDnfUpdates (ranked : List Player) (p : Player) : Player :=
  if p.finishedAt.isNone then
    match ranked.find? (fun q => q.socketId == p.socketId) with
    | some q => q
    | none => p
  else p

/-- JS: players.filter(p => p.finishedAt).sort((a, b) => a.rank - b.rank). -/
def sortedFinished (ps : List Player) : List Player :=
  (ps.filter (fun p => p.finishedAt.isSome)).insertionSort rankLe

/-- JS: players.filter(p => !p.finishedAt).sort((a, b) => b.progress -
a.progress), then ranks F+1, F+2, ... and the dnf flag are assigned in that
order. -/
def rankedUnfinished (ps : List Player) : List Player :=
  assignDnfRanks (sortedFinished ps).length
    ((ps.filter (fun p => p.finishedAt.isNone)).insertionSort progGe)

/-- buildResultsArray from src/server.js.  The JS version sorts the finished
players by rank, the unfinished by descending progress (Array.sort is
stable; we model it with the stable insertionSort), then mutates the shared
unfinished player objects with their DNF rank.  We return the mutated room
together with the serialized results. -/
def buildResultsArray (room : Room) : Room × List SerializedPlayer :=
  ({ room with
      players := room.players.map (applyDnfUpdates (rankedUnfinished room.players)) },
   (sortedFinished room.players ++ rankedUnfinished room.players).map serializePlayer)

def endRace (room : Room) : Room × List Ev :=
  if room.phase = Phase.finished then (room, [])
  else
    let r1 : Room := { room with
      phase := Phase.finished, broadcastArmed := false, timeoutArmed := false }
    let res := buildResultsArray r1
    (res.1, [Ev.raceFinished res.2])

def checkAllFinished (room : Room) : Room × List Ev :=
  let active := room.players.filter (fun p => !p.disconnected)
  if active.all (fun p => p.finishedAt.isSome) then endRace room else (room, [])

-- ── click handler (per room) ──

/-- The guard chain of socket.on click: racing phase, player present,
not finished, not disconnected, and at least 50ms since the last accepted
click (JS rejects when now - lastClickTime < 50). -/
def clickAccepted (room : Room) (sid : String) (now : Nat) : Bool :=
  room.phase == Phase.racing &&
    (match getPlayer room sid with
     | none => false
     | some p => !p.finishedAt.isSome && !p.disconnected &&
         decide (50 ≤ now - p.lastClickTime))

def clickRoom (room : Room) (sid : String) (now : Nat) : Room × List Ev :=
  if room.phase ≠ Phase.racing then (room, [])
  else
    match getPlayer room sid with
    | none => (room, [])
    | some p =>
      if p.finishedAt.isSome || p.disconnected then (room, [])
      else if now - p.lastClickTime < 50 then (room, [])
      else
        let c := min 100 (p.clickCount + 1)
        let p1 : Player := { p with lastClickTime := now, clickCount := c, progress := c }
        if 100 ≤ c then
          let p2 : Player := { p1 with
            finishedAt := some now, rank := some (room.finishedCount + 1) }
          let r1 : Room := { room with
            players := setPlayer room.players p2,
            finishedCount := room.finishedCount + 1 }
          let ev := Ev.playerFinished sid (room.finishedCount + 1)
            ((now : Int) - ((room.raceStartedAt.getD 0 : Nat) : Int))
          let res := checkAllFinished r1
          (res.1, ev :: res.2)
        else
          ({ room with players := setPlayer room.players p1 }, [])

/-- Fold a sequence of click messages (their arrival times) for one socket. -/
def runClicks (room : Room) (sid : String) : List Nat → Room
  | [] => room
  | t :: ts => runClicks (clickRoom room sid t).1 sid ts

/-- Number of clicks of the sequence that pass the acceptance guards. -/
def acceptedCount (room : Room) (sid : String) : List Nat → Nat
  | [] => 0
  | t :: ts =>
    (if clickAccepted room sid t then 1 else 0) +
      acceptedCount (clickRoom room sid t).1 sid ts

-- ── start-race / reset-room / timers (per room) ──

def startRaceRoom (room : Room) (sid : String) (now : Nat) : Room × List Ev :=
  if room.hostSocketId ≠ sid then (room, [])
  else if room.phase ≠ Phase.lobby then (room, [])
  else if room.players.length < 1 then
    (room, [Ev.startError "Need at least 1 player to start the race."])
  else
    ({ room with
        phase := Phase.racing, raceStartedAt := some now,
        finishedCount := 0, broadcastArmed := true, timeoutArmed := true },
     [Ev.raceStarted (now + 3500)])

/-- One firing of the 20Hz broadcast interval body. -/
def broadcastTick (room : Room) : Room × List Ev :=
  if room.phase ≠ Phase.racing then ({ room with broadcastArmed := false }, [])
  else (room, [Ev.progressUpdate (room.players.map (fun p => (p.socketId, p.progress)))])

/-- Firing of the 5-minute race timeout body. -/
def raceTimeoutFire (room : Room) : Room × List Ev :=
  if room.phase ≠ Phase.racing then (room, []) else endRace room

def resetPlayer (p : Player) : Player :=
  { p with
    progress := 0, clickCount := 0, lastClickTime := 0,
    finishedAt := none, rank := none, dnf := false, disconnected := false }

def resetRoom (room : Room) (sid : String) : Room × List Ev :=
  if room.hostSocketId ≠ sid then (room, [])
  else
    let players := room.players.map resetPlayer
    let r : Room := { room with
      phase := Phase.lobby, raceStartedAt := none,
      finishedCount := 0, broadcastArmed := false,
      timeoutArmed := false, players := players }
    (r, [Ev.roomReset (players.map serializePlayer) room.hostSocketId])

-- ── disconnect (per room; none means the room was deleted) ──

/-- Racing-phase disconnect, step 1: player.disconnected = true (the player
stays in the map). -/
def discPlayers (room : Room) (player : Player) : List Player :=
  setPlayer room.players { player with disconnected := true }

/-- Racing-phase disconnect, step 2: if the leaver was host, migrate to the
first remaining non-disconnected player (when one exists). -/
def discNextHost (room : Room) (sid : String) (player : Player) : Option String :=
  if room.hostSocketId = sid then
    ((discPlayers room player).find? (fun p => !p.disconnected)).map
      (fun p => p.socketId)
  else none

def discRoom (room : Room) (sid : String) (player : Player) : Room :=
  match discNextHost room sid player with
  | some h => { room with players := discPlayers room player, hostSocketId := h }
  | none => { room with players := discPlayers room player }

def disconnectFromRoom (room : Room) (sid : String) : Option Room × List Ev :=
  match getPlayer room sid with
  | none => (some room, [])
  | some player =>
    match room.phase with
    | Phase.lobby =>
      match delPlayer room.players sid with
      | [] => (none, [])
      | q :: rest =>
        if room.hostSocketId = sid then
          (some { room with players := q :: rest, hostSocketId := q.socketId },
           [Ev.playerLeft sid (some q.socketId)])
        else
          (some { room with players := q :: rest }, [Ev.playerLeft sid none])
    | Phase.racing =>
      let res := checkAllFinished (discRoom room sid player)
      (some res.1, Ev.playerLeft sid (discNextHost room sid player) :: res.2)
    | Phase.finished =>
      let ps := delPlayer room.players sid
      if ps.isEmpty then (none, []) else (some { room with players := ps }, [])

-- ── Registry-level handlers ──

abbrev Registry := List Room

def regGet (reg : Registry) (code : String) : Option Room :=
  reg.find? (fun r => r.code == code)

def regSet (reg : Registry) (room : Room) : Registry :=
  reg.map (fun r => if r.code == room.code then room else r)

def regDelete (reg : Registry) (code : String) : Registry :=
  reg.filter (fun r => r.code != code)

def findRoomBySocket (reg : Registry) (sid : String) : Option Room :=
  reg.find? (fun r => (getPlayer r sid).isSome)

/-- create-room handler: the generated code is passed as a parameter (the
source draws it from a collision-free nanoid). -/
def createRoom (reg : Registry) (sid nm mdl code : String) (now : Nat) :
    Registry × List Ev :=
  let player := mkPlayer sid nm mdl (COLOR_PALETTE.getD 0 "")
  let room : Room := {
    code := code, hostSocketId := sid, phase := Phase.lobby,
    players := [player], createdAt := now, raceStartedAt := none,
    finishedCount := 0, broadcastArmed := false, timeoutArmed := false }
  (reg ++ [room], [Ev.roomCreated code (serializePlayer player)])

def joinRoom (reg : Registry) (sid nm mdl code : String) : Registry × List Ev :=
  match regGet reg (upperCode code) with
  | none => (reg, [Ev.joinError "Room not found. Check the code and try again."])
  | some room =>
    if room.phase ≠ Phase.lobby then
      (reg, [Ev.joinError "This race has already started. Wait for the next round."])
    else if 16 ≤ room.players.length then
      (reg, [Ev.joinError "Room is full (max 16 players)."])
    else
      let player := mkPlayer sid nm mdl (getNextColor room)
      let room2 : Room := { room with players := setPlayer room.players player }
      (regSet reg room2,
       [Ev.roomJoined room.code room.hostSocketId (room2.players.map serializePlayer),
        Ev.playerJoined (serializePlayer player)])

def rejoinRoom (reg : Registry) (sid nm mdl code : String) : Registry × List Ev :=
  match regGet reg (upperCode code) with
  | none => (reg, [Ev.rejoinFailed "Room no longer exists."])
  | some room =>
    let player := mkPlayer sid nm mdl (getNextColor room)
    let room2 : Room := { room with players := setPlayer room.players player }
    (regSet reg room2,
     [Ev.roomJoined room.code room.hostSocketId (room2.players.map serializePlayer),
      Ev.playerJoined (serializePlayer player)])

/-- start-race at registry level: note the exact (not uppercased) lookup. -/
def startRaceRg (reg : Registry) (sid roomCode : String) (now : Nat) :
    Registry × List Ev :=
  match regGet reg roomCode with
  | none => (reg, [])
  | some room =>
    let res := startRaceRoom room sid now
    (regSet reg res.1, res.2)

/-- click at registry level: note the exact (not uppercased) lookup. -/
def handleClickRg (reg : Registry) (sid roomCode : String) (now : Nat) :
    Registry × List Ev :=
  match regGet reg roomCode with
  | none => (reg, [])
  | some room =>
    let res := clickRoom room sid now
    (regSet reg res.1, res.2)

/-- reset-room at registry level: note the exact (not uppercased) lookup. -/
def resetRoomRg (reg : Registry) (sid roomCode : String) : Registry × List Ev :=
  match regGet reg roomCode with
  | none => (reg, [])
  | some room =>
    let res := resetRoom room sid
    (regSet reg res.1, res.2)

def handleDisconnect (reg : Registry) (sid : String) : Registry × List Ev :=
  match findRoomBySocket reg sid with
  | none => (reg, [])
  | some room =>
    match disconnectFromRoom room sid with
    | (none, evs) => (regDelete reg room.code, evs)
    | (some r2, evs) => (regSet reg r2, evs)

/-- The mid-race invariant maintained by the click handler between start-race
and endRace: the ranks already assigned (exactly to the finished players, in
arrival order via ++finishedCount) form a permutation of 1..finishedCount,
and no dnf flag is set before the race ends. -/
def RaceInv (room : Room) : Prop :=
  ((room.players.filter (fun p => p.finishedAt.isSome)).map
    (fun p => p.rank.getD 0)).Perm (List.range' 1 room.finishedCount) ∧
  (∀ p ∈ room.players, p.dnf = false)

-- ── Concrete states (used to instantiate the theorems) ──

def pRacerA : Player :=
  { socketId := "A", name := "Ann", carModel := "cla", carColor := "#C0C0C0",
    progress := 0, clickCount := 0, lastClickTime := 0, finishedAt := none,
    rank := none, dnf := false, disconnected := false }

def pRacerB : Player :=
  { pRacerA with socketId := "B", name := "Bob", carColor := "#CC0000" }

/-- A two-player room mid-race, nobody has clicked yet. -/
def roomRacing : Room :=
  { code := "RACE23", hostSocketId := "A", phase := Phase.racing,
    players := [pRacerA, pRacerB], createdAt := 0, raceStartedAt := some 1000,
    finishedCount := 0, broadcastArmed := true, timeoutArmed := true }

def roomLobby : Room :=
  { roomRacing with
    phase := Phase.lobby, raceStartedAt := none,
    broadcastArmed := false, timeoutArmed := false }

/-- Player one click away from finishing. -/
def pAlmost : Player :=
  { pRacerA with clickCount := 99, progress := 99, lastClickTime := 1900 }

def roomAlmost : Room :=
  { roomRacing with players := [pAlmost, pRacerB] }

/-- Racing room at the moment the race ends: one finished player (rank 1),
two stragglers at progress 70 and 30. -/
def pFin1 : Player :=
  { pRacerA with
    clickCount := 100, progress := 100,
    finishedAt := some 5000, rank := some 1, lastClickTime := 5000 }

def pUnf1 : Player := { pRacerB with progress := 70, clickCount := 70 }

def pUnf2 : Player :=
  { pRacerA with
    socketId := "C", name := "Cy", carColor := "#1E3A8A",
    progress := 30, clickCount := 30 }

def roomNearEnd : Room :=
  { roomRacing with players := [pFin1, pUnf1, pUnf2], finishedCount := 1 }

/-- Racing room where B already dropped; A is the last active player. -/
def pDiscB : Player :=
  { pRacerB with progress := 40, clickCount := 40, disconnected := true }

def pActiveA : Player := { pRacerA with progress := 70, clickCount := 70 }

def roomLastActive : Room :=
  { roomRacing with players := [pActiveA, pDiscB] }

def regLastActive : Registry := [roomLastActive]

def regRacing : Registry := [roomRacing]

/-- A second lobby room with a distinct code, and a registry holding both. -/
def roomOther : Room := { roomLobby with code := "OTHERX" }

def regTwo : Registry := [roomOther, roomLobby]

/-- Registry evolution showing the dangling host after a finished-phase
disconnect: create, join, start, then three disconnects. -/
def regH1 : Registry := (createRoom [] "H" "Ann" "cla" "ABCDEF" 0).1

def regH2 : Registry := (joinRoom regH1 "A" "Bob" "cla" "ABCDEF").1

def regH3 : Registry := (startRaceRg regH2 "H" "ABCDEF" 1000).1

def regH4 : Registry := (handleDisconnect regH3 "H").1

def regH5 : Registry := (handleDisconnect regH4 "A").1

def regH6 : Registry := (handleDisconnect regH5 "A").1

/-- Registry evolution showing one connection in two rooms: another
connection creates room ROOMAA, C joins it, then C sends create-room. -/
def regM1 : Registry := (createRoom [] "H" "Ann" "cla" "ROOMAA" 0).1

def regM2 : Registry := (joinRoom regM1 "C" "Bob" "cla" "ROOMAA").1

def regM3 : Registry := (createRoom regM2 "C" "Bob" "cla" "ROOMBB" 7).1

-- ── Basic lemmas about the player map ──

theorem find?_map_replace (q : Player) : ∀ ps : List Player,
    (ps.map (fun p => if p.socketId == q.socketId then q else p)).find?
      (fun p => p.socketId == q.socketId) =
      if ps.any (fun p => p.socketId == q.socketId) then some q else none
  | [] => by simp
  | a :: as => by
    by_cases h : a.socketId == q.socketId
    · rw [List.map_cons, if_pos h,
        List.find?_cons_of_pos _ (by simp), List.any_cons, h]
      simp
    · rw [List.map_cons, if_neg h,
        List.find?_cons_of_neg _ (by simpa using h), List.any_cons,
        show (a.socketId == q.socketId) = false from by simpa using h]
      rw [Bool.false_or]
      exact find?_map_replace q as

theorem find?_setPlayer (ps : List Player) (q : Player) :
    (setPlayer ps q).find? (fun p => p.socketId == q.socketId) = some q := by
  unfold setPlayer
  by_cases h : ps.any (fun p => p.socketId == q.socketId)
  · rw [if_pos h, find?_map_replace, if_pos h]
  · rw [if_neg h, List.find?_append]
    have h2 : ps.find? (fun p => p.socketId == q.socketId) = none := by
      rw [List.find?_eq_none]
      intro x hx
      exact fun hb => h (List.any_eq_true.2 ⟨x, hx, hb⟩)
    simp [h2]

theorem find?_map_of_socketId_preserved (ps : List Player) (f : Player → Player)
    (hf : ∀ x, (f x).socketId = x.socketId) (sid : String) :
    (ps.map f).find? (fun p => p.socketId == sid) =
      (ps.find? (fun p => p.socketId == sid)).map f := by
  rw [List.find?_map]
  have : ((fun p => p.socketId == sid) ∘ f) = (fun p : Player => p.socketId == sid) := by
    funext x
    simp [Function.comp, hf x]
  rw [this]

theorem applyDnfUpdates_socketId (ranked : List Player) (p : Player) :
    (applyDnfUpdates ranked p).socketId = p.socketId := by
  unfold applyDnfUpdates
  by_cases h : p.finishedAt.isNone
  · rw [if_pos h]
    cases hfind : ranked.find? (fun q => q.socketId == p.socketId) with
    | none => rfl
    | some q =>
      show q.socketId = p.socketId
      have h2 := List.find?_some hfind
      exact eq_of_beq h2
  · rw [if_neg h]

theorem applyDnfUpdates_of_finished (ranked : List Player) (p : Player)
    (hf : p.finishedAt.isSome) : applyDnfUpdates ranked p = p := by
  have h : p.finishedAt.isNone = false := by
    cases h2 : p.finishedAt
    · rw [h2] at hf; simp at hf
    · rfl
  unfold applyDnfUpdates
  rw [h]
  simp

theorem getPlayer_buildResults_finished (room : Room) (sid : String) (p : Player)
    (hp : getPlayer room sid = some p) (hf : p.finishedAt.isSome) :
    getPlayer (buildResultsArray room).1 sid = some p := by
  unfold getPlayer at hp ⊢
  show (room.players.map (applyDnfUpdates _)).find? (fun x => x.socketId == sid) = some p
  rw [find?_map_of_socketId_preserved _ _ (fun x => applyDnfUpdates_socketId _ x), hp]
  simp [applyDnfUpdates_of_finished _ _ hf]

theorem getPlayer_checkAllFinished_finished (room : Room) (sid : String) (p : Player)
    (hp : getPlayer room sid = some p) (hf : p.finishedAt.isSome) :
    getPlayer (checkAllFinished room).1 sid = some p := by
  unfold checkAllFinished
  by_cases hall :
      (room.players.filter (fun p => !p.disconnected)).all (fun p => p.finishedAt.isSome)
  · rw [if_pos hall]
    unfold endRace
    by_cases hph : room.phase = Phase.finished
    · rw [if_pos hph]; exact hp
    · rw [if_neg hph]
      exact getPlayer_buildResults_finished _ sid p hp hf
  · rw [if_neg hall]; exact hp

-- ── The click handler step ──

theorem clickRoom_step (room : Room) (sid : String) (now : Nat) (p : Player)
    (hp : getPlayer room sid = some p) :
    (clickAccepted room sid now = false → clickRoom room sid now = (room, [])) ∧
    (clickAccepted room sid now = true →
      ∃ q, getPlayer (clickRoom room sid now).1 sid = some q ∧
        q.clickCount = min 100 (p.clickCount + 1) ∧ q.progress = q.clickCount ∧
        q.lastClickTime = now ∧ q.socketId = p.socketId ∧
        q.name = p.name ∧ q.carModel = p.carModel ∧ q.carColor = p.carColor ∧
        q.disconnected = p.disconnected) := by
  have hp' : room.players.find? (fun x => x.socketId == sid) = some p := hp
  have hsid : p.socketId = sid := by
    have h2 := List.find?_some hp'
    exact eq_of_beq h2
  have hacc : clickAccepted room sid now =
      ((room.phase == Phase.racing) && (!p.finishedAt.isSome && !p.disconnected &&
        decide (50 ≤ now - p.lastClickTime))) := by
    simp only [clickAccepted, hp]
  by_cases hph : room.phase = Phase.racing
  · by_cases hfd : p.finishedAt.isSome || p.disconnected
    · constructor
      · intro _
        unfold clickRoom
        simp only [hp]
        rw [if_neg (by simp [hph]), if_pos hfd]
      · intro htrue
        rw [hacc] at htrue
        simp only [Bool.and_eq_true, Bool.not_eq_true'] at htrue
        simp only [Bool.or_eq_true] at hfd
        rcases hfd with h | h
        · rw [htrue.2.1.1] at h; cases h
        · rw [htrue.2.1.2] at h; cases h
    · by_cases hthr : now - p.lastClickTime < 50
      · constructor
        · intro _
          unfold clickRoom
          simp only [hp]
          rw [if_neg (by simp [hph]), if_neg hfd, if_pos hthr]
        · intro htrue
          rw [hacc] at htrue
          simp only [Bool.and_eq_true, decide_eq_true_eq] at htrue
          exact absurd htrue.2.2 (by omega)
      · -- all guards pass: the click is accepted
        have haccT : clickAccepted room sid now = true := by
          rw [hacc]
          simp only [Bool.or_eq_true, not_or, Bool.not_eq_true] at hfd
          rw [hph, hfd.1, hfd.2]
          simp only [beq_self_eq_true, Bool.not_false, Bool.true_and]
          exact decide_eq_true (by omega)
        refine ⟨fun hfalse => (by rw [haccT] at hfalse; cases hfalse), ?_⟩
        intro _
        unfold clickRoom
        simp only [hp]
        rw [if_neg (by simp [hph]), if_neg hfd, if_neg hthr]
        by_cases hfin : 100 ≤ min 100 (p.clickCount + 1)
        · rw [if_pos hfin]
          refine ⟨{ p with
            lastClickTime := now, clickCount := min 100 (p.clickCount + 1),
            progress := min 100 (p.clickCount + 1), finishedAt := some now,
            rank := some (room.finishedCount + 1) },
            ?_, rfl, rfl, rfl, rfl, rfl, rfl, rfl, rfl⟩
          set p2 : Player := { p with
            lastClickTime := now, clickCount := min 100 (p.clickCount + 1),
            progress := min 100 (p.clickCount + 1), finishedAt := some now,
            rank := some (room.finishedCount + 1) } with hp2
          have hset : getPlayer { room with
              players := setPlayer room.players p2,
              finishedCount := room.finishedCount + 1 } sid = some p2 := by
            show (setPlayer room.players p2).find? (fun x => x.socketId == sid) = some p2
            have he : sid = p2.socketId := hsid.symm
            rw [he]
            exact find?_setPlayer room.players p2
          exact getPlayer_checkAllFinished_finished _ sid p2 hset rfl
        · rw [if_neg hfin]
          refine ⟨{ p with
            lastClickTime := now, clickCount := min 100 (p.clickCount + 1),
            progress := min 100 (p.clickCount + 1) },
            ?_, rfl, rfl, rfl, rfl, rfl, rfl, rfl, rfl⟩
          set p1 : Player := { p with
            lastClickTime := now, clickCount := min 100 (p.clickCount + 1),
            progress := min 100 (p.clickCount + 1) } with hp1
          show (setPlayer room.players p1).find? (fun x => x.socketId == sid) = some p1
          have he : sid = p1.socketId := hsid.symm
          rw [he]
          exact find?_setPlayer room.players p1
  · constructor
    · intro _
      unfold clickRoom
      rw [if_pos (by simp [hph])]
    · intro htrue
      rw [hacc] at htrue
      simp [hph] at htrue

-- ── Click sequences ──

theorem runClicks_append (sid : String) (ts₁ ts₂ : List Nat) : ∀ room : Room,
    runClicks room sid (ts₁ ++ ts₂) = runClicks (runClicks room sid ts₁) sid ts₂ := by
  induction ts₁ with
  | nil => intro room; rfl
  | cons t ts ih => intro room; exact ih (clickRoom room sid t).1

theorem runClicks_spec (sid : String) : ∀ (ts : List Nat) (room : Room) (p : Player),
    getPlayer room sid = some p → p.progress = p.clickCount → p.clickCount ≤ 100 →
    ∃ q, getPlayer (runClicks room sid ts) sid = some q ∧
      q.progress = q.clickCount ∧ q.clickCount ≤ 100 ∧
      q.clickCount = min 100 (p.clickCount + acceptedCount room sid ts) := by
  intro ts
  induction ts with
  | nil =>
    intro room p hp hpc hle
    exact ⟨p, hp, hpc, hle, by simp [acceptedCount]; omega⟩
  | cons t ts ih =>
    intro room p hp hpc hle
    obtain ⟨hrej, hacc⟩ := clickRoom_step room sid t p hp
    by_cases h : clickAccepted room sid t
    · obtain ⟨q, hq, hqc, hqp, -, -⟩ := hacc h
      obtain ⟨r, hr, hrp, hrle, hrc⟩ := ih (clickRoom room sid t).1 q hq hqp (by omega)
      refine ⟨r, by simpa [runClicks] using hr, hrp, hrle, ?_⟩
      rw [hrc, hqc]
      simp only [acceptedCount, h, if_pos]
      omega
    · have hb : clickAccepted room sid t = false := by
        cases hc : clickAccepted room sid t
        · rfl
        · exact absurd hc h
      have heq := hrej hb
      obtain ⟨r, hr, hrp, hrle, hrc⟩ := ih (clickRoom room sid t).1 p (by rw [heq]; exact hp) hpc hle
      refine ⟨r, by simpa [runClicks] using hr, hrp, hrle, ?_⟩
      rw [hrc]
      simp [acceptedCount, hb]

/-- Claim C1: in a racing room, a click from a present, unfinished,
non-disconnected player is accepted iff at least 50ms have elapsed since the
player's last accepted input (the handler stamps lastClickTime only on
acceptance); a rejected click leaves the room unchanged and emits nothing; an
accepted click sets the click counter to min 100 (counter + 1) and progress
mirrors the counter; over any sequence of click inputs the counter equals the
starting counter plus the number of accepted inputs, capped at 100, and
progress is monotonically non-decreasing. -/
theorem c1_click_rate_limit_progress (room : Room) (sid : String) (p : Player)
    (now : Nat) (ts : List Nat)
    (hracing : room.phase = Phase.racing)
    (hp : getPlayer room sid = some p)
    (hnf : p.finishedAt = none) (hnd : p.disconnected = false)
    (hpc : p.progress = p.clickCount) (hle : p.clickCount ≤ 100) :
    (clickAccepted room sid now = true ↔ 50 ≤ now - p.lastClickTime) ∧
    (¬ 50 ≤ now - p.lastClickTime → clickRoom room sid now = (room, [])) ∧
    (50 ≤ now - p.lastClickTime →
      ∃ q, getPlayer (clickRoom room sid now).1 sid = some q ∧
        q.clickCount = min 100 (p.clickCount + 1) ∧ q.progress = q.clickCount ∧
        q.lastClickTime = now) ∧
    (∃ q, getPlayer (runClicks room sid ts) sid = some q ∧
      q.progress = q.clickCount ∧
      q.clickCount = min 100 (p.clickCount + acceptedCount room sid ts) ∧
      p.progress ≤ q.progress) ∧
    (∀ ts2, ∃ q q2, getPlayer (runClicks room sid ts) sid = some q ∧
      getPlayer (runClicks room sid (ts ++ ts2)) sid = some q2 ∧
      q.progress ≤ q2.progress) := by
  have hiff : clickAccepted room sid now = true ↔ 50 ≤ now - p.lastClickTime := by
    simp only [clickAccepted, hp, hracing, hnf, hnd]
    simp
  refine ⟨hiff, ?_, ?_, ?_, ?_⟩
  · intro h50
    refine (clickRoom_step room sid now p hp).1 ?_
    cases hb : clickAccepted room sid now
    · rfl
    · exact absurd (hiff.1 hb) h50
  · intro h50
    obtain ⟨q, hq, h1, h2, h3, -⟩ := (clickRoom_step room sid now p hp).2 (hiff.2 h50)
    exact ⟨q, hq, h1, h2, h3⟩
  · obtain ⟨q, hq, h1, h2, h3⟩ := runClicks_spec sid ts room p hp hpc hle
    exact ⟨q, hq, h1, h3, by omega⟩
  · intro ts2
    obtain ⟨q, hq, h1, h2, h3⟩ := runClicks_spec sid ts room p hp hpc hle
    obtain ⟨q2, hq2, g1, g2, g3⟩ :=
      runClicks_spec sid ts2 (runClicks room sid ts) q hq h1 h2
    refine ⟨q, q2, hq, ?_, ?_⟩
    · rw [runClicks_append]
      exact hq2
    · omega

-- ── End-of-race helper lemmas ──

theorem endRace_of_finished (r : Room) (h : r.phase = Phase.finished) :
    endRace r = (r, []) := by
  unfold endRace
  rw [if_pos h]

theorem checkAllFinished_of_finished (r : Room) (h : r.phase = Phase.finished) :
    checkAllFinished r = (r, []) := by
  simp only [checkAllFinished]
  split
  · exact endRace_of_finished r h
  · rfl

theorem broadcastTick_of_finished (r : Room) (hph : r.phase = Phase.finished)
    (hb : r.broadcastArmed = false) : broadcastTick r = (r, []) := by
  unfold broadcastTick
  rw [if_pos (by rw [hph]; intro h; cases h)]
  have : { r with broadcastArmed := false } = r := by
    cases r
    subst hb
    rfl
  rw [this]

theorem raceTimeoutFire_of_finished (r : Room) (hph : r.phase = Phase.finished) :
    raceTimeoutFire r = (r, []) := by
  unfold raceTimeoutFire
  rw [if_pos (by rw [hph]; intro h; cases h)]

theorem checkAllFinished_events_shape (room : Room) :
    (checkAllFinished room).2 = [] ∨
      ∃ rs, (checkAllFinished room).2 = [Ev.raceFinished rs] := by
  simp only [checkAllFinished, endRace]
  split
  · split
    · exact Or.inl rfl
    · exact Or.inr ⟨_, rfl⟩
  · exact Or.inl rfl

theorem filter_countdown_checkAllFinished (r : Room) :
    ((checkAllFinished r).2).filter Ev.isFirstFinisherCountdown = [] := by
  rcases checkAllFinished_events_shape r with h | ⟨rs, h⟩ <;> rw [h] <;> rfl

/-- Claim C3: from the racing phase, the first end-of-race trigger sets the
phase to finished, cancels the broadcast interval and the race timeout, and
emits race-finished exactly once; on the resulting room a repeated end
trigger, the all-finished re-check, a stray broadcast tick and a stray
timeout firing are all complete no-ops, so the scheduled work only acts
while the phase is racing. -/
theorem c3_endRace_idempotent (room : Room) (hracing : room.phase = Phase.racing) :
    (endRace room).1.phase = Phase.finished ∧
    (endRace room).1.broadcastArmed = false ∧
    (endRace room).1.timeoutArmed = false ∧
    (∃ rs, (endRace room).2 = [Ev.raceFinished rs]) ∧
    endRace (endRace room).1 = ((endRace room).1, []) ∧
    checkAllFinished (endRace room).1 = ((endRace room).1, []) ∧
    broadcastTick (endRace room).1 = ((endRace room).1, []) ∧
    raceTimeoutFire (endRace room).1 = ((endRace room).1, []) := by
  have hne : ¬ room.phase = Phase.finished := by rw [hracing]; intro h; cases h
  have h1 : (endRace room).1.phase = Phase.finished := by
    unfold endRace
    rw [if_neg hne]
    rfl
  have h2 : (endRace room).1.broadcastArmed = false := by
    unfold endRace
    rw [if_neg hne]
    rfl
  have h3 : (endRace room).1.timeoutArmed = false := by
    unfold endRace
    rw [if_neg hne]
    rfl
  refine ⟨h1, h2, h3, ?_, ?_, ?_, ?_, ?_⟩
  · unfold endRace
    rw [if_neg hne]
    exact ⟨_, rfl⟩
  · exact endRace_of_finished _ h1
  · exact checkAllFinished_of_finished _ h1
  · exact broadcastTick_of_finished _ h1 h2
  · exact raceTimeoutFire_of_finished _ h1

/-- Claim C4 counterexample: the reset-room handler has no phase guard — a
host reset received while the room is racing changes the room state (the
claim says it must leave it unchanged). -/
theorem c4_counterexample :
    roomRacing.phase = Phase.racing ∧
    roomRacing.hostSocketId = "A" ∧
    (resetRoom roomRacing "A").1 ≠ roomRacing ∧
    (resetRoom roomRacing "A").1.phase = Phase.lobby := by decide

/-- Claim C4 (amended): the reset-room action is host-only but not
phase-guarded: a reset from a non-host leaves the room unchanged and emits
nothing, while a host reset in any phase (lobby, racing or finished) cancels
the timers, returns the room to lobby, resets the race bookkeeping and
restores every player's progress, click state, finishedAt, rank, dnf and
disconnected fields to their defaults. -/
theorem c4_reset_room_amended (room : Room) (sid : String) :
    (sid ≠ room.hostSocketId → resetRoom room sid = (room, [])) ∧
    (sid = room.hostSocketId →
      (resetRoom room sid).1.phase = Phase.lobby ∧
      (resetRoom room sid).1.raceStartedAt = none ∧
      (resetRoom room sid).1.finishedCount = 0 ∧
      (resetRoom room sid).1.broadcastArmed = false ∧
      (resetRoom room sid).1.timeoutArmed = false ∧
      (resetRoom room sid).1.hostSocketId = room.hostSocketId ∧
      (resetRoom room sid).1.players.map (fun p => p.socketId) =
        room.players.map (fun p => p.socketId) ∧
      (∀ p ∈ (resetRoom room sid).1.players,
        p.progress = 0 ∧ p.clickCount = 0 ∧ p.lastClickTime = 0 ∧
        p.finishedAt = none ∧ p.rank = none ∧ p.dnf = false ∧
        p.disconnected = false) ∧
      (resetRoom room sid).2 =
        [Ev.roomReset ((resetRoom room sid).1.players.map serializePlayer)
          room.hostSocketId]) := by
  constructor
  · intro h
    unfold resetRoom
    rw [if_pos (fun he => h he.symm)]
  · intro h
    have hcond : ¬ room.hostSocketId ≠ sid := by rw [h]; intro hc; exact hc rfl
    unfold resetRoom
    rw [if_neg hcond]
    refine ⟨rfl, rfl, rfl, rfl, rfl, rfl, ?_, ?_, rfl⟩
    · show (room.players.map resetPlayer).map (fun p => p.socketId) =
        room.players.map (fun p => p.socketId)
      rw [List.map_map]
      rfl
    · intro p hp
      obtain ⟨q, -, rfl⟩ := List.mem_map.1 hp
      exact ⟨rfl, rfl, rfl, rfl, rfl, rfl, rfl⟩

/-- Claim C7 (code divergence): no server handler ever emits the
first-finisher-countdown event the client listens for; in particular the
click that makes the very first player of a room finish emits only
player-finished with rank 1. -/
theorem c7_no_first_finisher_countdown :
    (clickRoom roomAlmost "A" 2000).2 = [Ev.playerFinished "A" 1 1000] ∧
    (∀ room sid now,
      ((clickRoom room sid now).2.filter Ev.isFirstFinisherCountdown) = []) ∧
    (∀ room sid,
      ((disconnectFromRoom room sid).2.filter Ev.isFirstFinisherCountdown) = []) ∧
    (∀ room, ((raceTimeoutFire room).2.filter Ev.isFirstFinisherCountdown) = []) := by
  refine ⟨by decide, ?_, ?_, ?_⟩
  · intro room sid now
    simp only [clickRoom]
    split
    · rfl
    · split
      · rfl
      · split
        · rfl
        · split
          · rfl
          · split
            · simp [List.filter_cons, Ev.isFirstFinisherCountdown,
                filter_countdown_checkAllFinished]
            · rfl
  · intro room sid
    simp only [disconnectFromRoom]
    split
    · rfl
    · split
      · split
        · rfl
        · split
          · rfl
          · rfl
      · simp [List.filter_cons, Ev.isFirstFinisherCountdown,
          filter_countdown_checkAllFinished]
      · split
        · rfl
        · rfl
  · intro room
    unfold raceTimeoutFire
    split
    · rfl
    · unfold endRace
      split
      · rfl
      · rfl

/-- Claim C8 (code divergence): start-race stamps raceStartedAt with the
instant the start action is processed while broadcasting a startTime 3500ms
later, and the player-finished elapsed time is measured from the action
instant (59000 = 60000 - 1000), not from the broadcast startTime
(60000 - 4500 = 55500). -/
theorem c8_race_start_times :
    (startRaceRoom roomLobby "A" 1000).1.raceStartedAt = some 1000 ∧
    (startRaceRoom roomLobby "A" 1000).2 = [Ev.raceStarted 4500] ∧
    (1000 : Nat) ≠ 4500 ∧
    (clickRoom roomAlmost "A" 60000).2 = [Ev.playerFinished "A" 1 59000] ∧
    (59000 : Int) ≠ 60000 - 4500 := by decide

-- ── Ranking lemmas for the final standings ──

theorem assignDnfRanks_map_rank : ∀ (l : List Player) (base : Nat),
    (assignDnfRanks base l).map (fun p => p.rank.getD 0) =
      List.range' (base + 1) l.length
  | [], _ => rfl
  | p :: ps, base => by
    rw [List.length_cons, List.range'_succ]
    show (base + 1) :: (assignDnfRanks (base + 1) ps).map (fun p => p.rank.getD 0) = _
    rw [assignDnfRanks_map_rank ps (base + 1)]

theorem assignDnfRanks_map_progress : ∀ (l : List Player) (base : Nat),
    (assignDnfRanks base l).map (fun p => p.progress) = l.map (fun p => p.progress)
  | [], _ => rfl
  | p :: ps, base => by
    show p.progress :: (assignDnfRanks (base + 1) ps).map (fun p => p.progress) = _
    rw [assignDnfRanks_map_progress ps (base + 1)]
    rfl

theorem assignDnfRanks_mem_dnf (l : List Player) : ∀ (base : Nat),
    ∀ q ∈ assignDnfRanks base l, q.dnf = true ∧ q.rank.isSome := by
  induction l with
  | nil => intro base q hq; cases hq
  | cons p ps ih =>
    intro base q hq
    rcases List.mem_cons.1 hq with h | h
    · subst h; exact ⟨rfl, rfl⟩
    · exact ih (base + 1) q h

theorem assignDnfRanks_exists_mem (l : List Player) : ∀ (base : Nat),
    ∀ p ∈ l, ∃ q ∈ assignDnfRanks base l, q.socketId = p.socketId := by
  induction l with
  | nil => intro base p hp; cases hp
  | cons x ps ih =>
    intro base p hp
    rcases List.mem_cons.1 hp with h | h
    · subst h
      exact ⟨_, List.mem_cons_self _ _, rfl⟩
    · obtain ⟨q, hq, hqs⟩ := ih (base + 1) p h
      exact ⟨q, List.mem_cons_of_mem _ hq, hqs⟩

theorem assignDnfRanks_length : ∀ (l : List Player) (base : Nat),
    (assignDnfRanks base l).length = l.length
  | [], _ => rfl
  | _ :: ps, base => by
    show (assignDnfRanks (base + 1) ps).length + 1 = _
    rw [assignDnfRanks_length ps (base + 1)]
    rfl

theorem length_filter_finished_add (ps : List Player) :
    (ps.filter (fun p => p.finishedAt.isSome)).length +
      (ps.filter (fun p => p.finishedAt.isNone)).length = ps.length := by
  induction ps with
  | nil => rfl
  | cons p ps ih =>
    cases h : p.finishedAt with
    | none =>
      simp only [List.filter_cons, h, Option.isSome_none, Option.isNone_none,
        Bool.false_eq_true, if_false, if_true, List.length_cons]
      omega
    | some t =>
      simp only [List.filter_cons, h, Option.isSome_some, Option.isNone_some,
        Bool.false_eq_true, if_false, if_true, List.length_cons]
      omega

theorem sortedFinished_map_rank (ps : List Player) (F : Nat)
    (hperm : ((ps.filter (fun p => p.finishedAt.isSome)).map
        (fun p => p.rank.getD 0)).Perm (List.range' 1 F)) :
    (sortedFinished ps).map (fun p => p.rank.getD 0) = List.range' 1 F := by
  have h1 : ((sortedFinished ps).map (fun p => p.rank.getD 0)).Perm
      (List.range' 1 F) :=
    ((List.perm_insertionSort rankLe _).map (fun p => p.rank.getD 0)).trans hperm
  have h2 : List.Sorted (fun a b => a ≤ b)
      ((sortedFinished ps).map (fun p => p.rank.getD 0)) :=
    List.pairwise_map.2 (List.sorted_insertionSort rankLe _)
  have h3 : List.Sorted (fun a b => a ≤ b) (List.range' 1 F) :=
    List.pairwise_le_range' 1 F
  exact List.eq_of_perm_of_sorted h1 h2 h3

theorem sortedFinished_length (ps : List Player) :
    (sortedFinished ps).length = (ps.filter (fun p => p.finishedAt.isSome)).length :=
  List.length_insertionSort _ _

/-- Claim C2: when a racing room transitions to finished, assuming the
invariants that the click handler maintains during the race (the ranks
already assigned to finished players form a permutation of 1..F and finished
players are not flagged dnf), the emitted results carry ranks that are
exactly 1..N in order (a permutation of 1..N with no gaps or duplicates),
the first F entries are the finished players (not dnf) ordered by ascending
rank, the remaining entries are dnf with sequential ranks F+1..N ordered by
descending progress, and in the mutated room every player without finishedAt
is marked dnf. -/
theorem c2_final_ranking (room : Room) (N F : Nat)
    (hracing : room.phase = Phase.racing)
    (hN : N = room.players.length)
    (hF : F = (room.players.filter (fun p => p.finishedAt.isSome)).length)
    (hperm : ((room.players.filter (fun p => p.finishedAt.isSome)).map
        (fun p => p.rank.getD 0)).Perm (List.range' 1 F))
    (hdnf : ∀ p ∈ room.players, p.finishedAt.isSome → p.dnf = false) :
    ∃ rs, (endRace room).2 = [Ev.raceFinished rs] ∧
      rs.map (fun q => q.rank.getD 0) = List.range' 1 N ∧
      (∀ q ∈ rs.take F, q.dnf = false) ∧
      (∀ q ∈ rs.drop F, q.dnf = true) ∧
      List.Pairwise (fun a b => b ≤ a) ((rs.drop F).map (fun q => q.progress)) ∧
      (∀ p ∈ (endRace room).1.players, p.finishedAt = none → p.dnf = true) := by
  have hne : ¬ room.phase = Phase.finished := by rw [hracing]; intro h; cases h
  have hps : (endRace room).1.players =
      room.players.map (applyDnfUpdates (rankedUnfinished room.players)) := by
    unfold endRace
    rw [if_neg hne]
    rfl
  have hev : (endRace room).2 =
      [Ev.raceFinished ((sortedFinished room.players ++
        rankedUnfinished room.players).map serializePlayer)] := by
    unfold endRace
    rw [if_neg hne]
    rfl
  set fl := room.players.filter (fun p => p.finishedAt.isSome) with hfl
  set ufl := room.players.filter (fun p => p.finishedAt.isNone) with hufl
  set fs := sortedFinished room.players with hfs
  set us := ufl.insertionSort progGe with hus
  set rk := rankedUnfinished room.players with hrk
  have hfsl : fs.length = F := by rw [hfs, sortedFinished_length, hF]
  have hufN : F + ufl.length = N := by
    rw [hF, hN, hufl]
    exact length_filter_finished_add room.players
  have husl : us.length = ufl.length := List.length_insertionSort _ _
  have hserf : ∀ l : List Player,
      (l.map serializePlayer).map (fun q => q.rank.getD 0) =
        l.map (fun p => p.rank.getD 0) := by
    intro l
    rw [List.map_map]
    rfl
  have hserp : ∀ l : List Player,
      (l.map serializePlayer).map (fun q => q.progress) =
        l.map (fun p => p.progress) := by
    intro l
    rw [List.map_map]
    rfl
  refine ⟨(fs ++ rk).map serializePlayer, hev, ?_, ?_, ?_, ?_, ?_⟩
  · rw [List.map_append, List.map_append, hserf, hserf]
    rw [sortedFinished_map_rank room.players F hperm]
    rw [hrk, rankedUnfinished]
    rw [assignDnfRanks_map_rank]
    rw [show sortedFinished room.players = fs from rfl, hfsl, husl]
    rw [show F + 1 = 1 + F from Nat.add_comm F 1, List.range'_append_1]
    congr 1
    omega
  · intro q hq
    rw [List.map_append, List.take_left' (by rw [List.length_map, hfsl])] at hq
    obtain ⟨x, hx, rfl⟩ := List.mem_map.1 hq
    have hx2 : x ∈ fl := (List.mem_insertionSort rankLe).1 hx
    have hx3 := List.mem_filter.1 hx2
    exact hdnf x hx3.1 hx3.2
  · intro q hq
    rw [List.map_append, List.drop_left' (by rw [List.length_map, hfsl])] at hq
    obtain ⟨x, hx, rfl⟩ := List.mem_map.1 hq
    exact (assignDnfRanks_mem_dnf _ _ x hx).1
  · rw [List.map_append, List.drop_left' (by rw [List.length_map, hfsl]), hserp]
    rw [hrk, rankedUnfinished, assignDnfRanks_map_progress]
    exact List.pairwise_map.2 (List.sorted_insertionSort progGe ufl)
  · rw [hps]
    intro p hp hpnone
    obtain ⟨x, hx, rfl⟩ := List.mem_map.1 hp
    by_cases hxf : x.finishedAt.isSome
    · rw [applyDnfUpdates_of_finished _ _ hxf] at hpnone ⊢
      rw [hpnone] at hxf
      simp at hxf
    · have hxn : x.finishedAt.isNone = true := by
        cases hfa : x.finishedAt
        · rfl
        · rw [hfa] at hxf; simp at hxf
      unfold applyDnfUpdates
      rw [if_pos hxn]
      have hx2 : x ∈ ufl := List.mem_filter.2 ⟨hx, hxn⟩
      have hx3 : x ∈ us := (List.mem_insertionSort progGe).2 hx2
      obtain ⟨q, hq, hqs⟩ := assignDnfRanks_exists_mem us fs.length x hx3
      have hfind : ((rankedUnfinished room.players).find?
          (fun q2 => q2.socketId == x.socketId)).isSome := by
        rw [List.find?_isSome]
        exact ⟨q, (by exact hq : q ∈ rankedUnfinished room.players), by
          rw [hqs]; exact beq_self_eq_true x.socketId⟩
      obtain ⟨q2, hfq⟩ := Option.isSome_iff_exists.1 hfind
      rw [hfq]
      have hq2 : q2 ∈ assignDnfRanks fs.length us :=
        List.mem_of_find?_eq_some hfq
      exact (assignDnfRanks_mem_dnf us fs.length q2 hq2).1

-- ── Structural lemmas: registry and room fields ──

theorem regGet_regSet (r2 : Room) (code : String) (hc : r2.code = code) :
    ∀ reg : Registry, (regGet reg code).isSome →
      regGet (regSet reg r2) code = some r2 := by
  intro reg
  induction reg with
  | nil => intro h; simp [regGet] at h
  | cons a as ih =>
    intro h
    by_cases ha : (a.code == code) = true
    · have ha2 : (a.code == r2.code) = true := by rw [hc]; exact ha
      show ((if a.code == r2.code then r2 else a) :: regSet as r2).find?
        (fun r => r.code == code) = some r2
      rw [if_pos ha2]
      exact List.find?_cons_of_pos _ (by rw [hc]; exact beq_self_eq_true code)
    · have ha2 : ¬ (a.code == r2.code) = true := by rw [hc]; exact ha
      have h2 : (regGet as code).isSome := by
        unfold regGet at h ⊢
        rwa [List.find?_cons_of_neg _ (by exact ha)] at h
      show ((if a.code == r2.code then r2 else a) :: regSet as r2).find?
        (fun r => r.code == code) = some r2
      rw [if_neg ha2, List.find?_cons_of_neg _ (by exact ha)]
      exact ih h2

theorem regGet_regDelete (reg : Registry) (c : String) :
    regGet (regDelete reg c) c = none := by
  unfold regGet regDelete
  rw [List.find?_eq_none]
  intro r hr
  have h2 := (List.mem_filter.1 hr).2
  simp only [bne_iff_ne, ne_eq] at h2
  simp [h2]

theorem mem_regSet_of_ne (reg : Registry) (room2 r : Room)
    (hr : r ∈ reg) (hne : r.code ≠ room2.code) : r ∈ regSet reg room2 := by
  refine List.mem_map.2 ⟨r, hr, ?_⟩
  have hb : (r.code == room2.code) = false := by simpa using hne
  rw [hb]
  simp

theorem mem_regSet_self (reg : Registry) (room room2 : Room)
    (hr : room ∈ reg) (hc : room.code = room2.code) : room2 ∈ regSet reg room2 := by
  refine List.mem_map.2 ⟨room, hr, ?_⟩
  have hb : (room.code == room2.code) = true := by rw [hc]; exact beq_self_eq_true _
  rw [hb]
  simp

theorem getPlayer_after_set (ps : List Player) (q : Player) (sid : String)
    (hq : q.socketId = sid) :
    ((setPlayer ps q).find? (fun x => x.socketId == sid)).isSome := by
  subst hq
  rw [find?_setPlayer]
  rfl

theorem getPlayer_isSome_iff (room : Room) (h : String) :
    (getPlayer room h).isSome ↔ ∃ x ∈ room.players, x.socketId = h := by
  unfold getPlayer
  rw [List.find?_isSome]
  constructor
  · rintro ⟨x, hx, hb⟩
    exact ⟨x, hx, eq_of_beq hb⟩
  · rintro ⟨x, hx, he⟩
    exact ⟨x, hx, by rw [he]; exact beq_self_eq_true h⟩

theorem setPlayer_presence (ps : List Player) (q : Player) (h : String)
    (hx : ∃ x ∈ ps, x.socketId = h) : ∃ x ∈ setPlayer ps q, x.socketId = h := by
  obtain ⟨x, hxm, hxe⟩ := hx
  unfold setPlayer
  by_cases hany : ps.any (fun p => p.socketId == q.socketId)
  · rw [if_pos hany]
    by_cases hxq : (x.socketId == q.socketId) = true
    · refine ⟨q, List.mem_map.2 ⟨x, hxm, by rw [hxq]; simp⟩, ?_⟩
      rw [← eq_of_beq hxq, hxe]
    · exact ⟨x, List.mem_map.2 ⟨x, hxm, by exact if_neg hxq⟩, hxe⟩
  · rw [if_neg hany]
    exact ⟨x, List.mem_append_left _ hxm, hxe⟩

theorem setPlayer_length_of_any (ps : List Player) (q : Player)
    (h : ps.any (fun p => p.socketId == q.socketId) = true) :
    (setPlayer ps q).length = ps.length := by
  unfold setPlayer
  rw [if_pos h]
  exact List.length_map _ _

theorem buildResults_presence (r : Room) (h : String)
    (hx : ∃ x ∈ r.players, x.socketId = h) :
    ∃ x ∈ (buildResultsArray r).1.players, x.socketId = h := by
  obtain ⟨x, hxm, hxe⟩ := hx
  exact ⟨applyDnfUpdates (rankedUnfinished r.players) x,
    List.mem_map.2 ⟨x, hxm, rfl⟩,
    by rw [applyDnfUpdates_socketId]; exact hxe⟩

theorem endRace_presence (r : Room) (h : String)
    (hx : ∃ x ∈ r.players, x.socketId = h) :
    ∃ x ∈ (endRace r).1.players, x.socketId = h := by
  unfold endRace
  by_cases hp : r.phase = Phase.finished
  · rw [if_pos hp]
    exact hx
  · rw [if_neg hp]
    exact buildResults_presence _ h hx

theorem checkAllFinished_presence (r : Room) (h : String)
    (hx : ∃ x ∈ r.players, x.socketId = h) :
    ∃ x ∈ (checkAllFinished r).1.players, x.socketId = h := by
  simp only [checkAllFinished]
  split
  · exact endRace_presence r h hx
  · exact hx

theorem endRace_code (r : Room) : (endRace r).1.code = r.code := by
  unfold endRace
  split <;> rfl

theorem checkAllFinished_code (r : Room) :
    (checkAllFinished r).1.code = r.code := by
  simp only [checkAllFinished]
  split
  · exact endRace_code r
  · rfl

theorem endRace_host (r : Room) :
    (endRace r).1.hostSocketId = r.hostSocketId := by
  unfold endRace
  split <;> rfl

theorem checkAllFinished_host (r : Room) :
    (checkAllFinished r).1.hostSocketId = r.hostSocketId := by
  simp only [checkAllFinished]
  split
  · exact endRace_host r
  · rfl

theorem endRace_length (r : Room) :
    (endRace r).1.players.length = r.players.length := by
  unfold endRace
  split
  · rfl
  · exact List.length_map _ _

theorem checkAllFinished_length (r : Room) :
    (checkAllFinished r).1.players.length = r.players.length := by
  simp only [checkAllFinished]
  split
  · exact endRace_length r
  · rfl

theorem endRace_phase (r : Room) (h : ¬ r.phase = Phase.finished) :
    (endRace r).1.phase = Phase.finished := by
  unfold endRace
  rw [if_neg h]
  rfl

/-- After buildResultsArray, every player left without finishedAt carries the
dnf flag (the JS forEach mutates exactly those player objects). -/
theorem buildResults_room_dnf (r : Room) :
    ∀ p ∈ (buildResultsArray r).1.players, p.finishedAt = none → p.dnf = true := by
  intro p hp hpnone
  obtain ⟨x, hx, rfl⟩ := List.mem_map.1 hp
  by_cases hxf : x.finishedAt.isSome
  · rw [applyDnfUpdates_of_finished _ _ hxf] at hpnone ⊢
    rw [hpnone] at hxf
    simp at hxf
  · have hxn : x.finishedAt.isNone = true := by
      cases hfa : x.finishedAt
      · rfl
      · rw [hfa] at hxf; simp at hxf
    unfold applyDnfUpdates
    rw [if_pos hxn]
    have hx2 : x ∈ r.players.filter (fun p => p.finishedAt.isNone) :=
      List.mem_filter.2 ⟨hx, hxn⟩
    have hx3 : x ∈ (r.players.filter (fun p => p.finishedAt.isNone)).insertionSort progGe :=
      (List.mem_insertionSort progGe).2 hx2
    obtain ⟨q, hq, hqs⟩ :=
      assignDnfRanks_exists_mem _ (sortedFinished r.players).length x hx3
    have hfind : ((rankedUnfinished r.players).find?
        (fun q2 => q2.socketId == x.socketId)).isSome := by
      rw [List.find?_isSome]
      exact ⟨q, hq, by rw [hqs]; exact beq_self_eq_true x.socketId⟩
    obtain ⟨q2, hfq⟩ := Option.isSome_iff_exists.1 hfind
    rw [hfq]
    exact (assignDnfRanks_mem_dnf _ _ q2 (List.mem_of_find?_eq_some hfq)).1

/-- Claim C9 counterexample: the click handler looks the room code up
exactly as sent — the lowercase spelling of an existing room code is a
silent no-op while the uppercase spelling processes the click — whereas
join-room accepts the lowercase spelling (it normalizes to uppercase). -/
theorem c9_counterexample :
    regGet regRacing "RACE23" = some roomRacing ∧
    upperCode "race23" = "RACE23" ∧
    handleClickRg regRacing "A" "race23" 2000 = (regRacing, []) ∧
    handleClickRg regRacing "A" "RACE23" 2000 ≠ (regRacing, []) ∧
    ((joinRoom [roomLobby] "X" "Zed" "cla" "race23").1.map
      (fun r => r.players.length)) = [3] := by decide

/-- Claim C9 (amended): only join-room and rejoin-room normalize the room
code to uppercase before the registry lookup; start-race, click and
reset-room look the code up exactly as sent, so for those three handlers a
spelling that matches no stored code verbatim is a silent no-op even when
the uppercased spelling names an existing room. -/
theorem c9_lookup_amended (reg : Registry) (sid nm mdl code : String) (now : Nat) :
    (regGet reg code = none →
      handleClickRg reg sid code now = (reg, []) ∧
      startRaceRg reg sid code now = (reg, []) ∧
      resetRoomRg reg sid code = (reg, [])) ∧
    (∀ room, regGet reg (upperCode code) = some room →
      room.phase = Phase.lobby → room.players.length < 16 →
      ∃ r2, regGet (joinRoom reg sid nm mdl code).1 room.code = some r2 ∧
        (getPlayer r2 sid).isSome) ∧
    (∀ room, regGet reg (upperCode code) = some room →
      ∃ r2, regGet (rejoinRoom reg sid nm mdl code).1 room.code = some r2 ∧
        (getPlayer r2 sid).isSome) := by
  refine ⟨?_, ?_, ?_⟩
  · intro h
    refine ⟨?_, ?_, ?_⟩
    · simp only [handleClickRg, h]
    · simp only [startRaceRg, h]
    · simp only [resetRoomRg, h]
  · intro room hroom hlobby hcap
    have hcode : room.code = upperCode code := by
      have h2 := List.find?_some hroom
      exact eq_of_beq h2
    have hisSome : (regGet reg room.code).isSome := by
      rw [hcode, hroom]
      rfl
    simp only [joinRoom, hroom]
    rw [if_neg (by simp [hlobby]), if_neg (by omega)]
    refine ⟨_, regGet_regSet { room with
        players := setPlayer room.players (mkPlayer sid nm mdl (getNextColor room)) }
      room.code rfl reg hisSome, ?_⟩
    exact getPlayer_after_set room.players (mkPlayer sid nm mdl (getNextColor room)) sid rfl
  · intro room hroom
    have hcode : room.code = upperCode code := by
      have h2 := List.find?_some hroom
      exact eq_of_beq h2
    have hisSome : (regGet reg room.code).isSome := by
      rw [hcode, hroom]
      rfl
    simp only [rejoinRoom, hroom]
    refine ⟨_, regGet_regSet { room with
        players := setPlayer room.players (mkPlayer sid nm mdl (getNextColor room)) }
      room.code rfl reg hisSome, ?_⟩
    exact getPlayer_after_set room.players (mkPlayer sid nm mdl (getNextColor room)) sid rfl

/-- Claim C6 counterexample: after another connection creates room ROOMAA,
connection C joins it and then sends create-room; C now appears in the
player maps of two distinct rooms at once. -/
theorem c6_counterexample :
    regM3.map (fun r => r.code) = ["ROOMAA", "ROOMBB"] ∧
    (regM3.filter (fun r => (getPlayer r "C").isSome)).length = 2 := by decide

/-- Claim C6 (amended): no handler removes a connection from its previous
room: create-room appends a fresh room containing the connection while
keeping every existing room untouched, and a successful join-room modifies
only the target room, so a connection already present in a room of a
different code stays there and additionally appears in the new or joined
room. -/
theorem c6_membership_amended (reg : Registry) (sid nm mdl code : String)
    (now : Nat) (r : Room) (hr : r ∈ reg) (_hin : (getPlayer r sid).isSome) :
    (r ∈ (createRoom reg sid nm mdl code now).1 ∧
      ∃ r2 ∈ (createRoom reg sid nm mdl code now).1, r2.code = code ∧
        (getPlayer r2 sid).isSome) ∧
    (∀ room, regGet reg (upperCode code) = some room → room.phase = Phase.lobby →
      room.players.length < 16 → r.code ≠ room.code →
      r ∈ (joinRoom reg sid nm mdl code).1 ∧
      ∃ r2 ∈ (joinRoom reg sid nm mdl code).1, r2.code = room.code ∧
        (getPlayer r2 sid).isSome) := by
  constructor
  · constructor
    · exact List.mem_append_left _ hr
    · refine ⟨_, List.mem_append_right _ (List.mem_singleton_self _), rfl, ?_⟩
      show (([mkPlayer sid nm mdl (COLOR_PALETTE.getD 0 "")]).find?
        (fun x => x.socketId == sid)).isSome
      rw [List.find?_cons_of_pos _ (by exact beq_self_eq_true sid)]
      rfl
  · intro room hroom hlobby hcap hne
    simp only [joinRoom, hroom]
    rw [if_neg (by simp [hlobby]), if_neg (by omega)]
    constructor
    · exact mem_regSet_of_ne reg _ r hr (by exact hne)
    · refine ⟨_, mem_regSet_self reg room { room with
          players := setPlayer room.players (mkPlayer sid nm mdl (getNextColor room)) }
        (List.mem_of_find?_eq_some hroom) rfl, rfl, ?_⟩
      exact getPlayer_after_set room.players (mkPlayer sid nm mdl (getNextColor room)) sid rfl

-- ── Disconnect lemmas ──

theorem discRoom_host_present (room : Room) (sid : String) (player : Player)
    (hhost : ∃ x ∈ room.players, x.socketId = room.hostSocketId) :
    ∃ x ∈ (discRoom room sid player).players,
      x.socketId = (discRoom room sid player).hostSocketId := by
  unfold discRoom
  cases hnh : discNextHost room sid player with
  | some h =>
    unfold discNextHost at hnh
    by_cases hhs : room.hostSocketId = sid
    · rw [if_pos hhs] at hnh
      obtain ⟨nxt, hfind, heq⟩ := Option.map_eq_some'.1 hnh
      exact ⟨nxt, List.mem_of_find?_eq_some hfind, heq⟩
    · rw [if_neg hhs] at hnh
      cases hnh
  | none =>
    exact setPlayer_presence room.players _ room.hostSocketId hhost

theorem discRoom_length (room : Room) (sid : String) (player : Player)
    (hany : room.players.any (fun p => p.socketId == player.socketId) = true) :
    (discRoom room sid player).players.length = room.players.length := by
  unfold discRoom
  cases discNextHost room sid player with
  | some h => exact setPlayer_length_of_any room.players _ hany
  | none => exact setPlayer_length_of_any room.players _ hany

/-- Claim C5 counterexample, reachable through the handlers: create, join,
start, host disconnects mid-race, the second player disconnects (which ends
the race), then the second player leaves the finished room.  The surviving
room is non-empty but its hostSocketId names a connection that is no longer
in the player map. -/
theorem c5_counterexample :
    (regGet regH6 "ABCDEF").map (fun r => r.players.length) = some 1 ∧
    (regGet regH6 "ABCDEF").map (fun r => r.hostSocketId) = some "A" ∧
    (regGet regH6 "ABCDEF").map (fun r => getPlayer r r.hostSocketId) =
      some none := by decide

/-- Claim C5 (amended): a disconnect handled in the lobby or racing phase
leaves the surviving room with its hostSocketId naming a player still
present in the player map (host migration covers those phases), and a
racing-phase disconnect never removes a player; but a finished-phase
disconnect removes the player without host reassignment, so hostSocketId
can dangle; a room whose player map becomes empty on disconnect is deleted
from the registry. -/
theorem c5_host_amended (room : Room) (sid : String)
    (hhost : (getPlayer room room.hostSocketId).isSome) :
    (room.phase ≠ Phase.finished →
      ∀ r2, (disconnectFromRoom room sid).1 = some r2 →
        (getPlayer r2 r2.hostSocketId).isSome) ∧
    (room.phase = Phase.racing →
      ∃ r2, (disconnectFromRoom room sid).1 = some r2 ∧
        r2.players.length = room.players.length) ∧
    (∀ reg, findRoomBySocket reg sid = some room →
      (disconnectFromRoom room sid).1 = none →
      regGet (handleDisconnect reg sid).1 room.code = none) := by
  have hhostE := (getPlayer_isSome_iff room room.hostSocketId).1 hhost
  refine ⟨?_, ?_, ?_⟩
  · intro hnf r2 hr2
    unfold disconnectFromRoom at hr2
    cases hgp : getPlayer room sid with
    | none =>
      simp only [hgp, Option.some.injEq] at hr2
      subst hr2
      exact hhost
    | some player =>
      cases hph : room.phase with
      | finished => exact absurd hph hnf
      | lobby =>
        simp only [hgp, hph] at hr2
        cases hdel : delPlayer room.players sid with
        | nil =>
          simp only [hdel] at hr2
          exact Option.noConfusion hr2
        | cons q rest =>
          simp only [hdel] at hr2
          by_cases hhs : room.hostSocketId = sid
          · rw [if_pos hhs] at hr2
            have he := Option.some.inj hr2
            subst he
            rw [getPlayer_isSome_iff]
            exact ⟨q, List.mem_cons_self _ _, rfl⟩
          · rw [if_neg hhs] at hr2
            have he := Option.some.inj hr2
            subst he
            rw [getPlayer_isSome_iff]
            obtain ⟨x, hxm, hxe⟩ := hhostE
            refine ⟨x, ?_, hxe⟩
            show x ∈ q :: rest
            rw [← hdel]
            refine List.mem_filter.2 ⟨hxm, ?_⟩
            rw [hxe]
            simpa using hhs
      | racing =>
        simp only [hgp, hph] at hr2
        have he := Option.some.inj hr2
        subst he
        rw [getPlayer_isSome_iff, checkAllFinished_host]
        exact checkAllFinished_presence _ _ (discRoom_host_present room sid player hhostE)
  · intro hph
    unfold disconnectFromRoom
    cases hgp : getPlayer room sid with
    | none =>
      simp only [hgp]
      exact ⟨room, rfl, rfl⟩
    | some player =>
      simp only [hgp, hph]
      refine ⟨_, rfl, ?_⟩
      rw [checkAllFinished_length]
      apply discRoom_length
      rw [List.any_eq_true]
      exact ⟨player, List.mem_of_find?_eq_some hgp, beq_self_eq_true _⟩
  · intro reg hfr hnone
    unfold handleDisconnect
    simp only [hfr]
    cases hd : disconnectFromRoom room sid with
    | mk o evs =>
      rw [hd] at hnone
      have ho : o = none := hnone
      subst ho
      simp only [hd]
      show regGet (regDelete reg room.code) room.code = none
      exact regGet_regDelete reg room.code

-- ── Lemmas for the vacuous all-finished check ──

theorem disconnectFromRoom_racing (room : Room) (sid : String) (player : Player)
    (hgp : getPlayer room sid = some player) (hph : room.phase = Phase.racing) :
    disconnectFromRoom room sid =
      (some (checkAllFinished (discRoom room sid player)).1,
       Ev.playerLeft sid (discNextHost room sid player) ::
         (checkAllFinished (discRoom room sid player)).2) := by
  obtain ⟨c, hs, ph, ps, ca, rs0, fc, ba, ta⟩ := room
  have hph2 : ph = Phase.racing := hph
  subst hph2
  unfold disconnectFromRoom
  rw [hgp]

theorem endRace_events (r : Room) (h : ¬ r.phase = Phase.finished) :
    (endRace r).2 = [Ev.raceFinished ((sortedFinished r.players ++
      rankedUnfinished r.players).map serializePlayer)] := by
  unfold endRace
  rw [if_neg h]
  rfl

theorem endRace_room_dnf (r : Room) (h : ¬ r.phase = Phase.finished) :
    ∀ p ∈ (endRace r).1.players, p.finishedAt = none → p.dnf = true := by
  unfold endRace
  rw [if_neg h]
  exact fun p hp => buildResults_room_dnf _ p hp

theorem sortedFinished_nil (ps : List Player)
    (h : ∀ x ∈ ps, x.finishedAt = none) : sortedFinished ps = [] := by
  unfold sortedFinished
  have h0 : ps.filter (fun p => p.finishedAt.isSome) = [] := by
    rw [List.filter_eq_nil_iff]
    intro x hx
    rw [h x hx]
    simp
  rw [h0]
  rfl

theorem filter_isNone_self (ps : List Player)
    (h : ∀ x ∈ ps, x.finishedAt = none) :
    ps.filter (fun p => p.finishedAt.isNone) = ps := by
  rw [List.filter_eq_self]
  intro x hx
  rw [h x hx]
  rfl

theorem discPlayers_disconnected (room : Room) (sid : String) (player : Player)
    (hpsid : player.socketId = sid)
    (hdisc : ∀ q ∈ room.players, q.socketId ≠ sid → q.disconnected = true) :
    ∀ x ∈ discPlayers room player, x.disconnected = true := by
  intro x hx
  unfold discPlayers setPlayer at hx
  by_cases hany : room.players.any
      (fun p => p.socketId == ({ player with disconnected := true } : Player).socketId)
  · rw [if_pos hany] at hx
    obtain ⟨x0, hx0, rfl⟩ := List.mem_map.1 hx
    by_cases hm : (x0.socketId ==
        ({ player with disconnected := true } : Player).socketId) = true
    · rw [if_pos hm]
    · rw [if_neg hm]
      refine hdisc x0 hx0 ?_
      rw [← hpsid]
      simpa using hm
  · rw [if_neg hany] at hx
    rcases List.mem_append.1 hx with h | h
    · refine hdisc x h ?_
      intro hcon
      apply hany
      rw [List.any_eq_true]
      refine ⟨x, h, ?_⟩
      show (x.socketId == player.socketId) = true
      rw [hcon, hpsid]
      exact beq_self_eq_true sid
    · have hxq := List.mem_singleton.1 h
      rw [hxq]

theorem discPlayers_unfinished (room : Room) (player : Player)
    (hpnone : player.finishedAt = none)
    (hnofin : ∀ q ∈ room.players, q.finishedAt = none) :
    ∀ x ∈ discPlayers room player, x.finishedAt = none := by
  intro x hx
  unfold discPlayers setPlayer at hx
  by_cases hany : room.players.any
      (fun p => p.socketId == ({ player with disconnected := true } : Player).socketId)
  · rw [if_pos hany] at hx
    obtain ⟨x0, hx0, rfl⟩ := List.mem_map.1 hx
    by_cases hm : (x0.socketId ==
        ({ player with disconnected := true } : Player).socketId) = true
    · rw [if_pos hm]
      exact hpnone
    · rw [if_neg hm]
      exact hnofin x0 hx0
  · rw [if_neg hany] at hx
    rcases List.mem_append.1 hx with h | h
    · exact hnofin x h
    · have hxq := List.mem_singleton.1 h
      rw [hxq]
      exact hpnone

/-- Claim C10: in a racing room where nobody has finished, a disconnect that
leaves zero non-disconnected players makes the all-finished check pass
vacuously and ends the race at once: the room stays in the registry (updated
in place), its phase becomes finished, every remaining record without
finishedAt is marked dnf, and the handler emits player-left (with no host
migration possible) followed by race-finished whose results carry ranks
1..N, all dnf, ordered by descending progress. -/
theorem c10_vacuous_end (reg : Registry) (room : Room) (sid : String)
    (hfind : findRoomBySocket reg sid = some room)
    (hracing : room.phase = Phase.racing)
    (hnofin : ∀ q ∈ room.players, q.finishedAt = none)
    (hdisc : ∀ q ∈ room.players, q.socketId ≠ sid → q.disconnected = true) :
    ∃ r2 ∈ (handleDisconnect reg sid).1,
      r2.code = room.code ∧ r2.phase = Phase.finished ∧
      (∀ q ∈ r2.players, q.finishedAt = none → q.dnf = true) ∧
      ∃ rs, (handleDisconnect reg sid).2 =
          [Ev.playerLeft sid none, Ev.raceFinished rs] ∧
        rs.map (fun q => q.rank.getD 0) = List.range' 1 room.players.length ∧
        (∀ q ∈ rs, q.dnf = true) ∧
        List.Pairwise (fun a b => b ≤ a) (rs.map (fun q => q.progress)) := by
  have hroomMem : room ∈ reg := List.mem_of_find?_eq_some hfind
  have hpresent := List.find?_some hfind
  -- the player record of sid
  cases hgp : getPlayer room sid with
  | none => rw [hgp] at hpresent; cases hpresent
  | some player =>
    have hpsid : player.socketId = sid := by
      have h2 : room.players.find? (fun x => x.socketId == sid) = some player := hgp
      have h3 := List.find?_some h2
      exact eq_of_beq h3
    have hpmem : player ∈ room.players := List.mem_of_find?_eq_some hgp
    have hpnone : player.finishedAt = none := hnofin player hpmem
    have hdiscAll := discPlayers_disconnected room sid player hpsid hdisc
    have hnofinAll := discPlayers_unfinished room player hpnone hnofin
    -- no non-disconnected player remains, so no host migration
    have hnh : discNextHost room sid player = none := by
      unfold discNextHost
      by_cases hhs : room.hostSocketId = sid
      · rw [if_pos hhs]
        have h0 : (discPlayers room player).find? (fun p => !p.disconnected) = none := by
          rw [List.find?_eq_none]
          intro x hx
          simp [hdiscAll x hx]
        rw [h0]
        rfl
      · rw [if_neg hhs]
    have hdiscR : discRoom room sid player =
        { room with players := discPlayers room player } := by
      unfold discRoom
      rw [hnh]
    -- the all-finished check passes vacuously
    have hall : (({ room with players := discPlayers room player } :
        Room).players.filter (fun p => !p.disconnected)).all
          (fun p => p.finishedAt.isSome) = true := by
      have h0 : ({ room with players := discPlayers room player } :
          Room).players.filter (fun p => !p.disconnected) = [] := by
        show (discPlayers room player).filter (fun p => !p.disconnected) = []
        rw [List.filter_eq_nil_iff]
        intro x hx
        simp [hdiscAll x hx]
      rw [h0]
      rfl
    have hCAF : checkAllFinished { room with players := discPlayers room player } =
        endRace { room with players := discPlayers room player } := by
      simp only [checkAllFinished]
      rw [if_pos hall]
    have hne2 : ¬ ({ room with players := discPlayers room player } : Room).phase =
        Phase.finished := by
      show ¬ room.phase = Phase.finished
      rw [hracing]
      intro h
      cases h
    -- shape of the per-room disconnect
    have hdfr : disconnectFromRoom room sid =
        (some (endRace { room with players := discPlayers room player }).1,
         Ev.playerLeft sid none ::
           (endRace { room with players := discPlayers room player }).2) := by
      rw [disconnectFromRoom_racing room sid player hgp hracing, hnh, hdiscR, hCAF]
    have hhd : handleDisconnect reg sid =
        (regSet reg (endRace { room with players := discPlayers room player }).1,
         Ev.playerLeft sid none ::
           (endRace { room with players := discPlayers room player }).2) := by
      unfold handleDisconnect
      simp only [hfind]
      rw [hdfr]
    set rr : Room := { room with players := discPlayers room player } with hrr
    have hcode2 : room.code = (endRace rr).1.code := by
      rw [endRace_code]
    -- results of the race end
    have hsf : sortedFinished rr.players = [] :=
      sortedFinished_nil _ hnofinAll
    have hru : rankedUnfinished rr.players =
        assignDnfRanks 0 ((discPlayers room player).insertionSort progGe) := by
      unfold rankedUnfinished
      rw [hsf]
      rw [show (rr.players.filter (fun p => p.finishedAt.isNone)) =
        discPlayers room player from filter_isNone_self _ hnofinAll]
      rfl
    have hlen : ((discPlayers room player).insertionSort progGe).length =
        room.players.length := by
      rw [List.length_insertionSort]
      apply setPlayer_length_of_any
      rw [List.any_eq_true]
      exact ⟨player, hpmem, beq_self_eq_true _⟩
    refine ⟨(endRace rr).1, ?_, ?_, ?_, ?_, ?_⟩
    · rw [hhd]
      exact mem_regSet_self reg room _ hroomMem hcode2
    · rw [endRace_code]
    · exact endRace_phase rr hne2
    · exact endRace_room_dnf rr hne2
    · refine ⟨(sortedFinished rr.players ++ rankedUnfinished rr.players).map
        serializePlayer, ?_, ?_, ?_, ?_⟩
      · rw [hhd, endRace_events rr hne2]
      · rw [hsf, List.nil_append, hru, List.map_map,
          show ((fun q : SerializedPlayer => q.rank.getD 0) ∘ serializePlayer) =
            (fun p : Player => p.rank.getD 0) from rfl,
          assignDnfRanks_map_rank, hlen]
      · intro q hq
        rw [hsf, List.nil_append] at hq
        obtain ⟨x, hx, rfl⟩ := List.mem_map.1 hq
        have := assignDnfRanks_mem_dnf
          ((discPlayers room player).insertionSort progGe) 0 x (by
            rw [hru] at hx
            exact hx)
        exact this.1
      · rw [hsf, List.nil_append, List.map_map,
          show ((fun q : SerializedPlayer => q.progress) ∘ serializePlayer) =
            (fun p : Player => p.progress) from rfl,
          hru, assignDnfRanks_map_progress]
        exact List.pairwise_map.2 (List.sorted_insertionSort progGe _)

-- ── Witnesses: the claim theorems applied at concrete states ──

theorem c1_witness :
    (clickAccepted roomRacing "A" 2000 = true ↔ 50 ≤ 2000 - pRacerA.lastClickTime) ∧
    (¬ 50 ≤ 2000 - pRacerA.lastClickTime → clickRoom roomRacing "A" 2000 = (roomRacing, [])) ∧
    (50 ≤ 2000 - pRacerA.lastClickTime →
      ∃ q, getPlayer (clickRoom roomRacing "A" 2000).1 "A" = some q ∧
        q.clickCount = min 100 (pRacerA.clickCount + 1) ∧ q.progress = q.clickCount ∧
        q.lastClickTime = 2000) ∧
    (∃ q, getPlayer (runClicks roomRacing "A" [2000, 2010, 2060]) "A" = some q ∧
      q.progress = q.clickCount ∧
      q.clickCount = min 100 (pRacerA.clickCount +
        acceptedCount roomRacing "A" [2000, 2010, 2060]) ∧
      pRacerA.progress ≤ q.progress) ∧
    (∀ ts2, ∃ q q2, getPlayer (runClicks roomRacing "A" [2000, 2010, 2060]) "A" = some q ∧
      getPlayer (runClicks roomRacing "A" ([2000, 2010, 2060] ++ ts2)) "A" = some q2 ∧
      q.progress ≤ q2.progress) :=
  c1_click_rate_limit_progress roomRacing "A" pRacerA 2000 [2000, 2010, 2060]
    (by decide) (by decide) (by decide) (by decide) (by decide) (by decide)

theorem c2_witness :
    ∃ rs, (endRace roomNearEnd).2 = [Ev.raceFinished rs] ∧
      rs.map (fun q => q.rank.getD 0) = List.range' 1 3 ∧
      (∀ q ∈ rs.take 1, q.dnf = false) ∧
      (∀ q ∈ rs.drop 1, q.dnf = true) ∧
      List.Pairwise (fun a b => b ≤ a) ((rs.drop 1).map (fun q => q.progress)) ∧
      (∀ p ∈ (endRace roomNearEnd).1.players, p.finishedAt = none → p.dnf = true) :=
  c2_final_ranking roomNearEnd 3 1 (by decide) (by decide) (by decide)
    (by decide) (by decide)

theorem c3_witness :
    (endRace roomRacing).1.phase = Phase.finished ∧
    (endRace roomRacing).1.broadcastArmed = false ∧
    (endRace roomRacing).1.timeoutArmed = false ∧
    (∃ rs, (endRace roomRacing).2 = [Ev.raceFinished rs]) ∧
    endRace (endRace roomRacing).1 = ((endRace roomRacing).1, []) ∧
    checkAllFinished (endRace roomRacing).1 = ((endRace roomRacing).1, []) ∧
    broadcastTick (endRace roomRacing).1 = ((endRace roomRacing).1, []) ∧
    raceTimeoutFire (endRace roomRacing).1 = ((endRace roomRacing).1, []) :=
  c3_endRace_idempotent roomRacing (by decide)

theorem c4_witness :
    resetRoom roomRacing "B" = (roomRacing, []) ∧
    (resetRoom roomRacing "A").1.phase = Phase.lobby ∧
    (∀ p ∈ (resetRoom roomRacing "A").1.players,
      p.progress = 0 ∧ p.clickCount = 0 ∧ p.lastClickTime = 0 ∧
      p.finishedAt = none ∧ p.rank = none ∧ p.dnf = false ∧
      p.disconnected = false) :=
  ⟨(c4_reset_room_amended roomRacing "B").1 (by decide),
   ((c4_reset_room_amended roomRacing "A").2 (by decide)).1,
   ((c4_reset_room_amended roomRacing "A").2 (by decide)).2.2.2.2.2.2.2.1⟩

theorem c5_witness :
    (roomRacing.phase ≠ Phase.finished →
      ∀ r2, (disconnectFromRoom roomRacing "A").1 = some r2 →
        (getPlayer r2 r2.hostSocketId).isSome) ∧
    (roomRacing.phase = Phase.racing →
      ∃ r2, (disconnectFromRoom roomRacing "A").1 = some r2 ∧
        r2.players.length = roomRacing.players.length) ∧
    (∀ reg, findRoomBySocket reg "A" = some roomRacing →
      (disconnectFromRoom roomRacing "A").1 = none →
      regGet (handleDisconnect reg "A").1 roomRacing.code = none) :=
  c5_host_amended roomRacing "A" (by decide)

theorem c6_witness :
    (roomOther ∈ (createRoom regTwo "A" "Ann" "cla" "NEWAB2" 9).1 ∧
      ∃ r2 ∈ (createRoom regTwo "A" "Ann" "cla" "NEWAB2" 9).1,
        r2.code = "NEWAB2" ∧ (getPlayer r2 "A").isSome) ∧
    (roomOther ∈ (joinRoom regTwo "A" "Ann" "cla" "race23").1 ∧
      ∃ r2 ∈ (joinRoom regTwo "A" "Ann" "cla" "race23").1,
        r2.code = roomLobby.code ∧ (getPlayer r2 "A").isSome) :=
  ⟨(c6_membership_amended regTwo "A" "Ann" "cla" "NEWAB2" 9 roomOther
      (by decide) (by decide)).1,
   (c6_membership_amended regTwo "A" "Ann" "cla" "race23" 9 roomOther
      (by decide) (by decide)).2 roomLobby (by decide) (by decide) (by decide)
      (by decide)⟩

theorem c9_witness :
    (handleClickRg [roomLobby] "Z" "race23" 7 = ([roomLobby], []) ∧
     startRaceRg [roomLobby] "Z" "race23" 7 = ([roomLobby], []) ∧
     resetRoomRg [roomLobby] "Z" "race23" = ([roomLobby], [])) ∧
    (∃ r2, regGet (joinRoom [roomLobby] "Z" "Zed" "cla" "race23").1
        roomLobby.code = some r2 ∧ (getPlayer r2 "Z").isSome) ∧
    (∃ r2, regGet (rejoinRoom [roomLobby] "Z" "Zed" "cla" "race23").1
        roomLobby.code = some r2 ∧ (getPlayer r2 "Z").isSome) :=
  ⟨(c9_lookup_amended [roomLobby] "Z" "Zed" "cla" "race23" 7).1 (by decide),
   (c9_lookup_amended [roomLobby] "Z" "Zed" "cla" "race23" 7).2.1 roomLobby
     (by decide) (by decide) (by decide),
   (c9_lookup_amended [roomLobby] "Z" "Zed" "cla" "race23" 7).2.2 roomLobby
     (by decide)⟩

theorem c10_witness :
    ∃ r2 ∈ (handleDisconnect regLastActive "A").1,
      r2.code = roomLastActive.code ∧ r2.phase = Phase.finished ∧
      (∀ q ∈ r2.players, q.finishedAt = none → q.dnf = true) ∧
      ∃ rs, (handleDisconnect regLastActive "A").2 =
          [Ev.playerLeft "A" none, Ev.raceFinished rs] ∧
        rs.map (fun q => q.rank.getD 0) =
          List.range' 1 roomLastActive.players.length ∧
        (∀ q ∈ rs, q.dnf = true) ∧
        List.Pairwise (fun a b => b ≤ a) (rs.map (fun q => q.progress)) :=
  c10_vacuous_end regLastActive roomLastActive "A" (by decide) (by decide)
    (by decide) (by decide)

-- ── The race invariant is established by start-race and preserved by click ──

theorem nodup_unique_socketId : ∀ ps : List Player,
    (ps.map (fun x => x.socketId)).Nodup →
    ∀ p ∈ ps, ∀ x ∈ ps, x.socketId = p.socketId → x = p := by
  intro ps
  induction ps with
  | nil => intro _ p hp; cases hp
  | cons a as ih =>
    intro hnd p hp x hx he
    rw [List.map_cons, List.nodup_cons] at hnd
    rcases List.mem_cons.1 hp with rfl | hps
    · rcases List.mem_cons.1 hx with rfl | hxs
      · rfl
      · exfalso
        apply hnd.1
        rw [← he]
        exact List.mem_map.2 ⟨x, hxs, rfl⟩
    · rcases List.mem_cons.1 hx with rfl | hxs
      · exfalso
        apply hnd.1
        rw [he]
        exact List.mem_map.2 ⟨p, hps, rfl⟩
      · exact ih hnd.2 p hps x hxs he

theorem map_replace_id (sid : String) (p2 : Player) : ∀ as : List Player,
    (∀ x ∈ as, (x.socketId == sid) = false) →
    as.map (fun x => if x.socketId == sid then p2 else x) = as := by
  intro as
  induction as with
  | nil => intro _; rfl
  | cons a as ih =>
    intro h
    have ha := h a (List.mem_cons_self a as)
    rw [List.map_cons]
    simp only [ha, Bool.false_eq_true, if_false]
    rw [ih (fun x hx => h x (List.mem_cons_of_mem _ hx))]

theorem filter_isSome_map_of_none (f : Player → Player) : ∀ ps : List Player,
    (∀ x ∈ ps, f x = x ∨
      ((f x).finishedAt.isNone = true ∧ x.finishedAt.isNone = true)) →
    (ps.map f).filter (fun x => x.finishedAt.isSome) =
      ps.filter (fun x => x.finishedAt.isSome) := by
  intro ps
  induction ps with
  | nil => intro _; rfl
  | cons a as ih =>
    intro h
    have htail := ih (fun x hx => h x (List.mem_cons_of_mem _ hx))
    rw [List.map_cons, List.filter_cons, List.filter_cons]
    rcases h a (List.mem_cons_self a as) with he | ⟨h1, h2⟩
    · rw [he, htail]
    · rw [Option.isNone_iff_eq_none] at h1 h2
      simp only [h1, h2, Option.isSome_none, Bool.false_eq_true, if_false]
      exact htail

theorem filter_map_replace_perm (sid : String) (p p2 : Player)
    (hpsid : p.socketId = sid) (hpN : p.finishedAt.isNone = true)
    (hp2S : p2.finishedAt.isSome = true) : ∀ ps : List Player,
    (ps.map (fun x => x.socketId)).Nodup → p ∈ ps →
    ((ps.map (fun x => if x.socketId == sid then p2 else x)).filter
      (fun x => x.finishedAt.isSome)).Perm
      (p2 :: ps.filter (fun x => x.finishedAt.isSome)) := by
  have hpS : p.finishedAt.isSome = false := by
    rw [Option.isNone_iff_eq_none] at hpN
    rw [hpN]
    rfl
  intro ps
  induction ps with
  | nil => intro _ hm; cases hm
  | cons a as ih =>
    intro hnd hm
    rw [List.map_cons, List.nodup_cons] at hnd
    rcases List.mem_cons.1 hm with rfl | hmas
    · have hcond : (p.socketId == sid) = true := by
        rw [hpsid]
        exact beq_self_eq_true sid
      have hxall : ∀ x ∈ as, (x.socketId == sid) = false := by
        intro x hx
        have : x.socketId ≠ sid := by
          intro hcon
          exact hnd.1 (by rw [hpsid, ← hcon]; exact List.mem_map.2 ⟨x, hx, rfl⟩)
        simpa using this
      rw [List.map_cons]
      simp only [hcond, if_true]
      rw [map_replace_id sid p2 as hxall, List.filter_cons, List.filter_cons]
      simp only [hp2S, if_true, hpS, Bool.false_eq_true, if_false]
      exact List.Perm.refl _
    · have haid : (a.socketId == sid) = false := by
        have : a.socketId ≠ sid := by
          intro hcon
          exact hnd.1 (by rw [hcon, ← hpsid]; exact List.mem_map.2 ⟨p, hmas, rfl⟩)
        simpa using this
      rw [List.map_cons]
      simp only [haid, Bool.false_eq_true, if_false]
      rw [List.filter_cons, List.filter_cons]
      by_cases hs : a.finishedAt.isSome = true
      · simp only [hs, if_true]
        exact ((ih hnd.2 hmas).cons a).trans (List.Perm.swap p2 a _)
      · simp only [Bool.not_eq_true] at hs
        simp only [hs, Bool.false_eq_true, if_false]
        exact ih hnd.2 hmas

theorem raceInv_implies (room : Room) (hInv : RaceInv room) :
    ((room.players.filter (fun p => p.finishedAt.isSome)).map
      (fun p => p.rank.getD 0)).Perm
      (List.range' 1 (room.players.filter (fun p => p.finishedAt.isSome)).length) ∧
    (∀ p ∈ room.players, p.finishedAt.isSome → p.dnf = false) := by
  have hlen : (room.players.filter (fun p => p.finishedAt.isSome)).length =
      room.finishedCount := by
    have h2 := hInv.1.length_eq
    rw [List.length_map, List.length_range'] at h2
    exact h2
  exact ⟨by rw [hlen]; exact hInv.1, fun p hp _ => hInv.2 p hp⟩

theorem startRace_raceInv (room : Room) (sid : String) (now : Nat)
    (hh : room.hostSocketId = sid) (hph : room.phase = Phase.lobby)
    (hlen : 1 ≤ room.players.length)
    (hfresh : ∀ p ∈ room.players, p.finishedAt = none ∧ p.dnf = false) :
    RaceInv (startRaceRoom room sid now).1 ∧
    (startRaceRoom room sid now).1.phase = Phase.racing := by
  unfold startRaceRoom
  rw [if_neg (by rw [hh]; intro hc; exact hc rfl),
    if_neg (by rw [hph]; intro hc; exact hc rfl),
    if_neg (by omega)]
  refine ⟨⟨?_, fun p hp => (hfresh p hp).2⟩, rfl⟩
  have h0 : room.players.filter (fun p => p.finishedAt.isSome) = [] := by
    rw [List.filter_eq_nil_iff]
    intro x hx
    rw [(hfresh x hx).1]
    simp
  show ((room.players.filter (fun p => p.finishedAt.isSome)).map
    (fun p => p.rank.getD 0)).Perm (List.range' 1 0)
  rw [h0]
  exact List.Perm.refl _

theorem clickRoom_preserves_raceInv (room : Room) (sid : String) (now : Nat)
    (hnd : (room.players.map (fun x => x.socketId)).Nodup)
    (hInv : RaceInv room) :
    (clickRoom room sid now).1.phase = Phase.racing →
      RaceInv (clickRoom room sid now).1 := by
  intro hres
  by_cases hph : room.phase = Phase.racing
  · cases hgp : getPlayer room sid with
    | none =>
      unfold clickRoom
      rw [if_neg (by simp [hph]), hgp]
      exact hInv
    | some p =>
      have hpsid : p.socketId = sid := by
        have hp2 : room.players.find? (fun x => x.socketId == sid) = some p := hgp
        have hp3 := List.find?_some hp2
        exact eq_of_beq hp3
      have hpmem : p ∈ room.players := List.mem_of_find?_eq_some hgp
      by_cases hfd : p.finishedAt.isSome || p.disconnected
      · unfold clickRoom
        rw [if_neg (by simp [hph])]
        simp only [hgp]
        rw [if_pos hfd]
        exact hInv
      · have hpN : p.finishedAt.isNone = true := by
          simp only [Bool.or_eq_true, not_or, Bool.not_eq_true] at hfd
          cases hfa : p.finishedAt
          · rfl
          · rw [hfa] at hfd; cases hfd.1
        by_cases hthr : now - p.lastClickTime < 50
        · unfold clickRoom
          rw [if_neg (by simp [hph])]
          simp only [hgp]
          rw [if_neg hfd, if_pos hthr]
          exact hInv
        · have hany : room.players.any
              (fun x => (x.socketId == p.socketId)) = true := by
            rw [List.any_eq_true]
            exact ⟨p, hpmem, beq_self_eq_true _⟩
          by_cases hfin : 100 ≤ min 100 (p.clickCount + 1)
          · -- the finishing click: p gains rank finishedCount + 1
            have hr1 : (clickRoom room sid now).1 = (checkAllFinished { room with
                players := setPlayer room.players { p with
                  lastClickTime := now, clickCount := min 100 (p.clickCount + 1),
                  progress := min 100 (p.clickCount + 1), finishedAt := some now,
                  rank := some (room.finishedCount + 1) },
                finishedCount := room.finishedCount + 1 }).1 := by
              unfold clickRoom
              rw [if_neg (by simp [hph])]
              simp only [hgp]
              rw [if_neg hfd, if_neg hthr, if_pos hfin]
            set p2 : Player := { p with
              lastClickTime := now, clickCount := min 100 (p.clickCount + 1),
              progress := min 100 (p.clickCount + 1), finishedAt := some now,
              rank := some (room.finishedCount + 1) } with hp2def
            set r1 : Room := { room with
              players := setPlayer room.players p2,
              finishedCount := room.finishedCount + 1 } with hr1def
            have hInv1 : RaceInv r1 := by
              constructor
              · -- ranks of finished players now form a permutation of 1..fc+1
                have hst : setPlayer room.players p2 = room.players.map
                    (fun x => if x.socketId == sid then p2 else x) := by
                  unfold setPlayer
                  rw [if_pos (by rw [show p2.socketId = p.socketId from rfl]; exact hany)]
                  rw [show p2.socketId = p.socketId from rfl, hpsid]
                have hperm2 := filter_map_replace_perm sid p p2 hpsid hpN rfl
                  room.players hnd hpmem
                show ((r1.players.filter (fun q => q.finishedAt.isSome)).map
                  (fun q => q.rank.getD 0)).Perm (List.range' 1 (room.finishedCount + 1))
                rw [show r1.players = setPlayer room.players p2 from rfl, hst]
                refine (hperm2.map (fun q => q.rank.getD 0)).trans ?_
                rw [List.map_cons]
                show ((room.finishedCount + 1) ::
                  (room.players.filter (fun q => q.finishedAt.isSome)).map
                    (fun q => q.rank.getD 0)).Perm (List.range' 1 (room.finishedCount + 1))
                refine ((hInv.1.cons (room.finishedCount + 1)).trans ?_)
                rw [List.range'_1_concat, Nat.add_comm 1 room.finishedCount]
                exact (List.perm_append_singleton _ _).symm
              · intro q hq
                have hst : setPlayer room.players p2 = room.players.map
                    (fun x => if x.socketId == sid then p2 else x) := by
                  unfold setPlayer
                  rw [if_pos (by rw [show p2.socketId = p.socketId from rfl]; exact hany)]
                  rw [show p2.socketId = p.socketId from rfl, hpsid]
                rw [show r1.players = setPlayer room.players p2 from rfl, hst] at hq
                obtain ⟨x, hx, rfl⟩ := List.mem_map.1 hq
                by_cases hc : (x.socketId == sid) = true
                · simp only [hc, if_true]
                  show p2.dnf = false
                  rw [hp2def]
                  exact hInv.2 p hpmem
                · simp only [hc, Bool.false_eq_true, if_false]
                  exact hInv.2 x hx
            rw [hr1] at hres ⊢
            by_cases hall : (r1.players.filter (fun q => !q.disconnected)).all
                (fun q => q.finishedAt.isSome) = true
            · exfalso
              have hend : checkAllFinished r1 = endRace r1 := by
                simp only [checkAllFinished]
                rw [if_pos hall]
              rw [hend, endRace_phase r1 (by
                show ¬ room.phase = Phase.finished
                rw [hph]
                intro hc
                cases hc)] at hres
              cases hres
            · have hnoop : checkAllFinished r1 = (r1, []) := by
                simp only [checkAllFinished]
                rw [if_neg hall]
              rw [hnoop]
              exact hInv1
          · -- an accepted non-finishing click: no rank changes
            have hr1 : (clickRoom room sid now).1 = { room with
                players := setPlayer room.players { p with
                  lastClickTime := now, clickCount := min 100 (p.clickCount + 1),
                  progress := min 100 (p.clickCount + 1) } } := by
              unfold clickRoom
              rw [if_neg (by simp [hph])]
              simp only [hgp]
              rw [if_neg hfd, if_neg hthr, if_neg hfin]
            set p1 : Player := { p with
              lastClickTime := now, clickCount := min 100 (p.clickCount + 1),
              progress := min 100 (p.clickCount + 1) } with hp1def
            have hst : setPlayer room.players p1 = room.players.map
                (fun x => if x.socketId == p1.socketId then p1 else x) := by
              unfold setPlayer
              rw [if_pos (by rw [show p1.socketId = p.socketId from rfl]; exact hany)]
            have hfix : (room.players.map
                (fun x => if x.socketId == p1.socketId then p1 else x)).filter
                  (fun x => x.finishedAt.isSome) =
                room.players.filter (fun x => x.finishedAt.isSome) := by
              apply filter_isSome_map_of_none
              intro x hx
              by_cases hc : (x.socketId == p1.socketId) = true
              · right
                have hxp : x = p := nodup_unique_socketId room.players hnd p hpmem x hx
                  (eq_of_beq hc)
                subst hxp
                simp only [hc, if_true]
                exact ⟨hpN, hpN⟩
              · left
                simp only [hc, Bool.false_eq_true, if_false]
            rw [hr1]
            constructor
            · show (((setPlayer room.players p1).filter
                (fun q => q.finishedAt.isSome)).map
                  (fun q => q.rank.getD 0)).Perm (List.range' 1 room.finishedCount)
              rw [hst, hfix]
              exact hInv.1
            · intro q hq
              rw [show ({ room with players := setPlayer room.players p1 } :
                Room).players = setPlayer room.players p1 from rfl, hst] at hq
              obtain ⟨x, hx, rfl⟩ := List.mem_map.1 hq
              by_cases hc : (x.socketId == p1.socketId) = true
              · simp only [hc, if_true]
                show p1.dnf = false
                rw [hp1def]
                exact hInv.2 p hpmem
              · simp only [hc, Bool.false_eq_true, if_false]
                exact hInv.2 x hx
  · unfold clickRoom
    rw [if_pos (by simp [hph])]
    exact hInv

theorem discRoom_phase (room : Room) (sid : String) (player : Player) :
    (discRoom room sid player).phase = room.phase := by
  unfold discRoom
  cases discNextHost room sid player <;> rfl

theorem discRoom_finishedCount (room : Room) (sid : String) (player : Player) :
    (discRoom room sid player).finishedCount = room.finishedCount := by
  unfold discRoom
  cases discNextHost room sid player <;> rfl

theorem discRoom_players (room : Room) (sid : String) (player : Player) :
    (discRoom room sid player).players = discPlayers room player := by
  unfold discRoom
  cases discNextHost room sid player <;> rfl

theorem filter_isSome_map_rank_of_preserve (f : Player → Player) :
    ∀ ps : List Player,
    (∀ x ∈ ps, (f x).finishedAt = x.finishedAt ∧ (f x).rank = x.rank) →
    ((ps.map f).filter (fun x => x.finishedAt.isSome)).map (fun q => q.rank.getD 0) =
      (ps.filter (fun x => x.finishedAt.isSome)).map (fun q => q.rank.getD 0) := by
  intro ps
  induction ps with
  | nil => intro _; rfl
  | cons a as ih =>
    intro h
    have ha := h a (List.mem_cons_self a as)
    have htail := ih (fun x hx => h x (List.mem_cons_of_mem _ hx))
    rw [List.map_cons, List.filter_cons, List.filter_cons, ha.1]
    by_cases hs : a.finishedAt.isSome = true
    · simp only [hs, if_true, List.map_cons, ha.2, htail]
    · simp only [Bool.not_eq_true] at hs
      simp only [hs, Bool.false_eq_true, if_false]
      exact htail

/-- A racing-phase disconnect that does not end the race preserves the race
invariant: marking a player disconnected touches neither ranks nor dnf
flags. -/
theorem disconnect_preserves_raceInv (room : Room) (sid : String)
    (hnd : (room.players.map (fun x => x.socketId)).Nodup)
    (hInv : RaceInv room) (hph : room.phase = Phase.racing) :
    ∀ r2, (disconnectFromRoom room sid).1 = some r2 → r2.phase = Phase.racing →
      RaceInv r2 := by
  intro r2 hr2 hrph
  cases hgp : getPlayer room sid with
  | none =>
    unfold disconnectFromRoom at hr2
    simp only [hgp, Option.some.injEq] at hr2
    subst hr2
    exact hInv
  | some player =>
    have hpsid : player.socketId = sid := by
      have hp2 : room.players.find? (fun x => x.socketId == sid) = some player := hgp
      have hp3 := List.find?_some hp2
      exact eq_of_beq hp3
    have hpmem : player ∈ room.players := List.mem_of_find?_eq_some hgp
    rw [disconnectFromRoom_racing room sid player hgp hph] at hr2
    have he := Option.some.inj hr2
    subst he
    by_cases hall : ((discRoom room sid player).players.filter
        (fun q => !q.disconnected)).all (fun q => q.finishedAt.isSome) = true
    · exfalso
      have hend : checkAllFinished (discRoom room sid player) =
          endRace (discRoom room sid player) := by
        simp only [checkAllFinished]
        rw [if_pos hall]
      rw [hend, endRace_phase _ (by rw [discRoom_phase, hph]; intro hc; cases hc)]
        at hrph
      cases hrph
    · have hnoop : checkAllFinished (discRoom room sid player) =
          (discRoom room sid player, []) := by
        simp only [checkAllFinished]
        rw [if_neg hall]
      rw [hnoop]
      have hany : room.players.any (fun x =>
          (x.socketId == ({ player with disconnected := true } :
            Player).socketId)) = true := by
        rw [List.any_eq_true]
        exact ⟨player, hpmem, beq_self_eq_true _⟩
      have hst : discPlayers room player = room.players.map
          (fun x => if x.socketId ==
            ({ player with disconnected := true } : Player).socketId
          then { player with disconnected := true } else x) := by
        unfold discPlayers setPlayer
        rw [if_pos hany]
      have hpres : ∀ x ∈ room.players,
          ((if x.socketId == ({ player with disconnected := true } :
              Player).socketId
            then { player with disconnected := true } else x) :
            Player).finishedAt = x.finishedAt ∧
          ((if x.socketId == ({ player with disconnected := true } :
              Player).socketId
            then { player with disconnected := true } else x) :
            Player).rank = x.rank := by
        intro x hx
        by_cases hc : (x.socketId == ({ player with disconnected := true } :
            Player).socketId) = true
        · have hxp : x = player :=
            nodup_unique_socketId room.players hnd player hpmem x hx (eq_of_beq hc)
          subst hxp
          simp [hc]
        · simp [hc]
      constructor
      · show (((discRoom room sid player).players.filter
          (fun q => q.finishedAt.isSome)).map (fun q => q.rank.getD 0)).Perm
            (List.range' 1 (discRoom room sid player).finishedCount)
        rw [discRoom_players, discRoom_finishedCount, hst,
          filter_isSome_map_rank_of_preserve _ room.players hpres]
        exact hInv.1
      · intro q hq
        rw [discRoom_players, hst] at hq
        obtain ⟨x, hx, rfl⟩ := List.mem_map.1 hq
        by_cases hc : (x.socketId == ({ player with disconnected := true } :
            Player).socketId) = true
        · simp only [hc, if_true]
          show ({ player with disconnected := true } : Player).dnf = false
          exact hInv.2 player hpmem
        · simp only [hc, Bool.false_eq_true, if_false]
          exact hInv.2 x hx

end MRace
